import Mathlib

/-!
# Housing-records HTTP service (`main.js`)

A shallow embedding of the request pipeline of `main.js`:

* `processHouseData` (lines 33-70): read and parse the input file, apply the
  `furnished` and `max_price` filters, project every surviving record;
* the `createServer` request handler (lines 73-106): method check, URL parsing,
  pipeline, XML encoding, response.

JavaScript values are modelled by `JSValue`.  The runtime and library services the
program calls but does not define (`readFile`, `JSON.parse`, `new URL`,
`XMLBuilder.build`) are fields of an environment `Env`; the language primitives
the filters rely on (`parseInt`, `===`, `<=`, truthiness, property access) are
embedded from their ECMAScript definitions.
-/

namespace HouseServer

/-! ## JavaScript values -/

/-- The JavaScript values the pipeline manipulates: those `JSON.parse` returns,
and `undefined`.  A number is carried as its `ToString` rendering, which is the
only way this program observes a number (`parseInt` converts its argument to a
string first, `===` against a string is false for every number, and the
projection copies the value).  An object lists each of its own properties once,
as `JSON.parse` builds it; strings are sequences of Unicode characters. -/
inductive JSValue where
  | undefined : JSValue
  | null : JSValue
  | bool (b : Bool) : JSValue
  | num (text : String) : JSValue
  | str (s : String) : JSValue
  | arr (items : List JSValue) : JSValue
  | obj (fields : List (String × JSValue)) : JSValue

/-- What a JavaScript exception carries, as far as this program can tell them
apart: the `TypeError` of a property read on `null` or `undefined`, of a call of
something that is not a function, and of a conversion of an object to a primitive
value; a fault of a library; and `wrapped e`, which is
`new Error('Помилка обробки даних: ' + e.message)`. -/
inductive Fault where
  | nullAccess (property : String) : Fault
  | notAFunction (method : String) : Fault
  | notPrimitive : Fault
  | external (message : String) : Fault
  | wrapped (cause : Fault) : Fault

/-- Own-property lookup in a list of fields. -/
def lookupField : List (String × JSValue) → String → JSValue
  | [], _ => .undefined
  | (k, v) :: rest, key => if k = key then v else lookupField rest key

/-- The value of `v.key` when it does not throw, for a key that no prototype
defines (`price`, `area`, `furnishingstatus`): an own field of an object,
`undefined` on any other non-nullish value. -/
def JSValue.field (v : JSValue) (key : String) : JSValue :=
  match v with
  | .obj fields => lookupField fields key
  | _ => .undefined

/-- Whether property access on the value is allowed (it throws a `TypeError` on
`null` and `undefined`). -/
def JSValue.isNullish : JSValue → Bool
  | .undefined => true
  | .null => true
  | _ => false

/-- The expression `v.key`. -/
def getProp (v : JSValue) (key : String) : Except Fault JSValue :=
  if v.isNullish then .error (.nullAccess key) else .ok (v.field key)

/-- The expression `v === s` for a string literal `s`. -/
def strictEqString (v : JSValue) (s : String) : Bool :=
  match v with
  | .str t => t == s
  | _ => false

/-- The abstract operation `ToBoolean`, as used by `if (...)`. -/
def truthy : JSValue → Bool
  | .undefined => false
  | .null => false
  | .bool b => b
  | .num text => !(text == "0" || text == "NaN")
  | .str s => !(s == "")
  | .arr _ => true
  | .obj _ => true

/-- Whether the object has an own property of that name. -/
def hasOwnField (fields : List (String × JSValue)) (key : String) : Bool :=
  fields.any fun kv => kv.1 == key

/-- The abstract operation `ToString` on an object parsed from JSON.  No value
parsed from JSON is callable, so an own `toString` property hides
`Object.prototype.toString` without being a method; `valueOf`, own or inherited,
yields no primitive either, and the conversion throws a `TypeError`.  Without an
own `toString`, `Object.prototype.toString` answers `[object Object]`. -/
def objectText (fields : List (String × JSValue)) : Except Fault String :=
  if hasOwnField fields "toString" then .error .notPrimitive else .ok "[object Object]"

mutual
/-- The abstract operation `ToString`; it throws when it meets an object that has
no primitive value. -/
def JSValue.toJSString : JSValue → Except Fault String
  | .undefined => .ok "undefined"
  | .null => .ok "null"
  | .bool b => .ok (if b then "true" else "false")
  | .num text => .ok text
  | .str s => .ok s
  | .arr items => joinItems items
  | .obj fields => objectText fields
/-- The text `Array.prototype.join` produces with the separator `,`: the elements
are converted from left to right. -/
def joinItems : List JSValue → Except Fault String
  | [] => .ok ""
  | [x] => itemText x
  | x :: y :: rest =>
      match itemText x with
      | .error e => .error e
      | .ok first =>
          match joinItems (y :: rest) with
          | .error e => .error e
          | .ok others => .ok (first ++ "," ++ others)
/-- How `join` renders one element: nullish elements give the empty string, any
other element its `ToString`. -/
def itemText : JSValue → Except Fault String
  | .undefined => .ok ""
  | .null => .ok ""
  | .bool b => .ok (if b then "true" else "false")
  | .num text => .ok text
  | .str s => .ok s
  | .arr items => joinItems items
  | .obj fields => objectText fields
end

/-! ## Numbers and `parseInt` -/

/-- The Number values `parseInt` can return: `NaN`, an integer-valued double, or
an infinity.  (`-0` compares like `0` and is carried as `fin 0`.) -/
inductive JSNumber where
  | nan : JSNumber
  | fin (v : Int) : JSNumber
  | posInf : JSNumber
  | negInf : JSNumber
deriving DecidableEq, Repr

/-- How many times a number is halved before it fits in 53 bits (at most `fuel`
times). -/
def excessBitsAux : Nat → Nat → Nat
  | 0, _ => 0
  | fuel + 1, n => if n < 2 ^ 53 then 0 else excessBitsAux fuel (n / 2) + 1

/-- The number of bits a natural number has beyond the 53 a double's significand
holds. -/
def excessBits (n : Nat) : Nat :=
  excessBitsAux n n

/-- The double nearest to a natural number (round to nearest, ties to even);
`none` when it rounds to `Infinity`. -/
def roundToDouble (n : Nat) : Option Nat :=
  if n < 2 ^ 53 then some n
  else
    let e := excessBits n
    let q := n / 2 ^ e
    let r := n % 2 ^ e
    let half := 2 ^ (e - 1)
    let q1 := if half < r ∨ (r = half ∧ q % 2 = 1) then q + 1 else q
    if 2 ^ 1024 ≤ q1 * 2 ^ e then none else some (q1 * 2 ^ e)

/-- The Number value of the mathematical integer `sign × n`. -/
def toNumber (negative : Bool) (n : Nat) : JSNumber :=
  match roundToDouble n with
  | some v => .fin (if negative then -(v : Int) else (v : Int))
  | none => if negative then .negInf else .posInf

/-- The Number value of a mathematical integer. -/
def numberOfInt (i : Int) : JSNumber :=
  toNumber (decide (i < 0)) i.natAbs

/-- The relation `a <= b` on the Numbers above: false as soon as one is `NaN`. -/
def jsLe : JSNumber → JSNumber → Bool
  | .nan, _ => false
  | _, .nan => false
  | .negInf, _ => true
  | _, .posInf => true
  | .fin a, .fin b => decide (a ≤ b)
  | .fin _, .negInf => false
  | .posInf, _ => false

/-- The characters `parseInt` skips at the start of its input (`StrWhiteSpaceChar`:
white space and line terminators). -/
def isStrWhiteSpaceChar (c : Char) : Bool :=
  c.toNat ∈ [0x9, 0xA, 0xB, 0xC, 0xD, 0x20, 0xA0, 0x1680, 0x2000, 0x2001, 0x2002,
    0x2003, 0x2004, 0x2005, 0x2006, 0x2007, 0x2008, 0x2009, 0x200A, 0x2028, 0x2029,
    0x202F, 0x205F, 0x3000, 0xFEFF]

/-- The value of a character as a digit (letters are the digits 10 to 35). -/
def digitValue (c : Char) : Option Nat :=
  if '0' ≤ c ∧ c ≤ '9' then some (c.toNat - '0'.toNat)
  else if 'a' ≤ c ∧ c ≤ 'z' then some (c.toNat - 'a'.toNat + 10)
  else if 'A' ≤ c ∧ c ≤ 'Z' then some (c.toNat - 'A'.toNat + 10)
  else none

/-- Whether the character is a digit of the radix. -/
def isRadixDigit (radix : Nat) (c : Char) : Bool :=
  match digitValue c with
  | some d => decide (d < radix)
  | none => false

/-- The mathematical integer a run of radix digits denotes. -/
def digitsValue (radix : Nat) (digits : List Char) : Nat :=
  digits.foldl (fun acc c => acc * radix + (digitValue c).getD 0) 0

/-- The sign `parseInt` reads and the rest of the input. -/
def splitSign : List Char → Bool × List Char
  | '-' :: rest => (true, rest)
  | '+' :: rest => (false, rest)
  | cs => (false, cs)

/-- The radix `parseInt` chooses when none is given, and the rest of the input. -/
def splitRadix : List Char → Nat × List Char
  | '0' :: 'x' :: rest => (16, rest)
  | '0' :: 'X' :: rest => (16, rest)
  | cs => (10, cs)

/-- The sign and the mathematical integer `parseInt(s)` reads from a string,
before conversion to a Number; `none` when there is no digit to read
(`parseInt` then returns `NaN`). -/
def parseIntParts (s : String) : Option (Bool × Nat) :=
  let trimmed := s.toList.dropWhile isStrWhiteSpaceChar
  let (negative, unsigned) := splitSign trimmed
  let (radix, body) := splitRadix unsigned
  let digits := body.takeWhile (isRadixDigit radix)
  if digits.isEmpty then none else some (negative, digitsValue radix digits)

/-- The mathematical integer `parseInt(s)` reads, when it reads one. -/
def parseIntExact (s : String) : Option Int :=
  (parseIntParts s).map fun p => if p.1 then -(p.2 : Int) else (p.2 : Int)

/-- The call `parseInt(s)` on a string, radix omitted. -/
def parseIntString (s : String) : JSNumber :=
  match parseIntParts s with
  | none => .nan
  | some (negative, n) => toNumber negative n

/-- The call `parseInt(v)`: the argument is converted to a string first, which can
throw. -/
def parseInt (v : JSValue) : Except Fault JSNumber :=
  match v.toJSString with
  | .error e => .error e
  | .ok text => .ok (parseIntString text)

/-! ## The environment -/

/-- The library functions the program calls and does not define.  The input file
itself is not part of the environment: the outcome of reading it is passed
separately, since it can change while the server runs. -/
structure Env where
  /-- The call `JSON.parse(data)`. -/
  jsonParse : String → Except Fault JSValue
  /-- The entries of `new URL(req.url, base).searchParams`, in order. -/
  parseUrl : String → Except Fault (List (String × String))
  /-- The call `xmlBuilder.build(value)`. -/
  build : JSValue → Except Fault String

/-- Assignment of an own property, as `Object.fromEntries` performs it: a key
already present keeps its place and takes the new value. -/
def setField : List (String × JSValue) → String → JSValue → List (String × JSValue)
  | [], key, value => [(key, value)]
  | (k, v) :: rest, key, value =>
      if k = key then (k, value) :: rest else (k, v) :: setField rest key value

/-- The call `Object.fromEntries(url.searchParams)`. -/
def fromEntries (entries : List (String × String)) : JSValue :=
  .obj (entries.foldl (fun fields e => setField fields e.1 (.str e.2)) [])

/-! ## `processHouseData` -/

/-- The loop of `Array.prototype.filter` with a callback that may throw. -/
def filterArray (keep : JSValue → Except Fault Bool) :
    List JSValue → Except Fault (List JSValue)
  | [] => .ok []
  | x :: rest =>
      match keep x with
      | .error e => .error e
      | .ok kept =>
          match filterArray keep rest with
          | .error e => .error e
          | .ok tail => .ok (if kept then x :: tail else tail)

/-- The loop of `Array.prototype.map` with a callback that may throw. -/
def mapArray (f : JSValue → Except Fault JSValue) :
    List JSValue → Except Fault (List JSValue)
  | [] => .ok []
  | x :: rest =>
      match f x with
      | .error e => .error e
      | .ok y =>
          match mapArray f rest with
          | .error e => .error e
          | .ok tail => .ok (y :: tail)

/-- The method call `v.filter(callback)`: only an array has a `filter` method
among the values `JSON.parse` returns. -/
def callFilter (v : JSValue) (keep : JSValue → Except Fault Bool) : Except Fault JSValue :=
  match v with
  | .arr items =>
      match filterArray keep items with
      | .error e => .error e
      | .ok kept => .ok (.arr kept)
  | .undefined => .error (.nullAccess "filter")
  | .null => .error (.nullAccess "filter")
  | _ => .error (.notAFunction "filter")

/-- The method call `v.map(callback)`. -/
def callMap (v : JSValue) (f : JSValue → Except Fault JSValue) : Except Fault JSValue :=
  match v with
  | .arr items =>
      match mapArray f items with
      | .error e => .error e
      | .ok mapped => .ok (.arr mapped)
  | .undefined => .error (.nullAccess "map")
  | .null => .error (.nullAccess "map")
  | _ => .error (.notAFunction "map")

/-- The callback `house => house.furnishingstatus === 'furnished'` (lines 43-45). -/
def isFurnished (house : JSValue) : Except Fault Bool :=
  match getProp house "furnishingstatus" with
  | .error e => .error e
  | .ok status => .ok (strictEqString status "furnished")

/-- The callback `house => parseInt(house.price) <= maxPrice` (lines 51-53). -/
def withinMaxPrice (maxPrice : JSNumber) (house : JSValue) : Except Fault Bool :=
  match getProp house "price" with
  | .error e => .error e
  | .ok price =>
      match parseInt price with
      | .error e => .error e
      | .ok priceNumber => .ok (jsLe priceNumber maxPrice)

/-- The callback of lines 57-63, building `{ house: { price, area, furnishingstatus } }`. -/
def projectHouse (house : JSValue) : Except Fault JSValue :=
  match getProp house "price" with
  | .error e => .error e
  | .ok price =>
      match getProp house "area" with
      | .error e => .error e
      | .ok area =>
          match getProp house "furnishingstatus" with
          | .error e => .error e
          | .ok status =>
              .ok (.obj [("house",
                .obj [("price", price), ("area", area), ("furnishingstatus", status)])])

/-- Lines 41-46: the `furnished` filter, applied when `queryParams.furnished === 'true'`. -/
def furnishedStep (queryParams houses : JSValue) : Except Fault JSValue :=
  match getProp queryParams "furnished" with
  | .error e => .error e
  | .ok furnished =>
      if strictEqString furnished "true" then callFilter houses isFurnished else .ok houses

/-- Lines 48-54: the `max_price` filter, applied when `queryParams.max_price` is truthy. -/
def maxPriceStep (queryParams houses : JSValue) : Except Fault JSValue :=
  match getProp queryParams "max_price" with
  | .error e => .error e
  | .ok maxPriceParam =>
      if truthy maxPriceParam then
        match parseInt maxPriceParam with
        | .error e => .error e
        | .ok maxPrice => callFilter houses (withinMaxPrice maxPrice)
      else .ok houses

/-- The `try` block of `processHouseData` (lines 35-65); `file` is the outcome of
`readFile(options.input, 'utf8')` at the time of the call. -/
def processHouseDataBody (env : Env) (file : Except Fault String) (queryParams : JSValue) :
    Except Fault JSValue :=
  match file with
  | .error e => .error e
  | .ok data =>
      match env.jsonParse data with
      | .error e => .error e
      | .ok houses =>
          match furnishedStep queryParams houses with
          | .error e => .error e
          | .ok afterFurnished =>
              match maxPriceStep queryParams afterFurnished with
              | .error e => .error e
              | .ok filteredHouses =>
                  match callMap filteredHouses projectHouse with
                  | .error e => .error e
                  | .ok result => .ok (.obj [("houses", result)])

/-- The function `processHouseData` (lines 33-70): any fault of the body is caught
and thrown again, wrapped in a new `Error`. -/
def processHouseData (env : Env) (file : Except Fault String) (queryParams : JSValue) :
    Except Fault JSValue :=
  match processHouseDataBody env file queryParams with
  | .ok value => .ok value
  | .error e => .error (.wrapped e)

/-! ## The request handler -/

/-- What the handler reads of a request. -/
structure Request where
  method : String
  url : String

/-- What the handler writes with `res.writeHead` and `res.end`. -/
structure Response where
  status : Nat
  headers : List (String × String)
  body : String

/-- The calls the handler makes besides writing the response, in order. -/
inductive Call where
  | consoleLog (message : String) : Call
  | parseUrl (url : String) : Call
  | processHouseData (queryParams : JSValue) : Call
  | build (value : JSValue) : Call
  | consoleError (fault : Fault) : Call

/-- The effect of handling one request. -/
structure Handled where
  response : Response
  calls : List Call

/-- The response of lines 78-79. -/
def methodNotAllowed : Response :=
  ⟨405, [("Content-Type", "text/plain")], "Method Not Allowed"⟩

/-- The response of lines 95-99. -/
def okXml (xmlData : String) : Response :=
  ⟨200, [("Content-Type", "application/xml"), ("Access-Control-Allow-Origin", "*")], xmlData⟩

/-- The response of lines 103-104. -/
def internalServerError : Response :=
  ⟨500, [("Content-Type", "text/plain")], "Internal Server Error"⟩

/-- The `try` block of the handler (lines 85-99): the XML text and the calls made
on success, the fault and the calls made before it otherwise. -/
def handleGet (env : Env) (file : Except Fault String) (req : Request) :
    Except Fault String × List Call :=
  match env.parseUrl req.url with
  | .error e => (.error e, [.parseUrl req.url])
  | .ok entries =>
      let queryParams := fromEntries entries
      match processHouseData env file queryParams with
      | .error e => (.error e, [.parseUrl req.url, .processHouseData queryParams])
      | .ok processedData =>
          match env.build processedData with
          | .error e =>
              (.error e,
                [.parseUrl req.url, .processHouseData queryParams, .build processedData])
          | .ok xmlData =>
              (.ok xmlData,
                [.parseUrl req.url, .processHouseData queryParams, .build processedData])

/-- The request handler passed to `createServer` (lines 73-106).  The result is
`.error` when a fault leaves the handler. -/
def handleRequest (env : Env) (file : Except Fault String) (req : Request) :
    Except Fault Handled :=
  let logged := Call.consoleLog ("Отримано запит: " ++ req.method ++ " " ++ req.url)
  if req.method ≠ "GET" then
    .ok ⟨methodNotAllowed, [logged]⟩
  else
    match handleGet env file req with
    | (.ok xmlData, calls) => .ok ⟨okXml xmlData, logged :: calls⟩
    | (.error e, calls) => .ok ⟨internalServerError, logged :: calls ++ [.consoleError e]⟩

/-- The start-up check of lines 17-23: the file is read once and its content is
dropped; the process exits with code 1 when the read fails.  The result tells
whether the process goes on to create the server. -/
def startupCheck (fileAtStartup : Except Fault String) : Bool :=
  match fileAtStartup with
  | .ok _ => true
  | .error _ => false

/-- One request served by a process started when the file read gave
`fileAtStartup`, at a time when it gives `fileAtRequest`; `none` when the process
has exited at start-up. -/
def serve (env : Env) (fileAtStartup fileAtRequest : Except Fault String) (req : Request) :
    Option (Except Fault Handled) :=
  if startupCheck fileAtStartup then some (handleRequest env fileAtRequest req) else none

/-! ## Fault-free readings of the callbacks -/

/-- Whether the record passes `house.furnishingstatus === 'furnished'`. -/
def furnishedOk (house : JSValue) : Bool :=
  strictEqString (house.field "furnishingstatus") "furnished"

/-- Whether the record passes `parseInt(house.price) <= maxPrice`, when the call
does not throw. -/
def priceOk (maxPrice : JSNumber) (house : JSValue) : Bool :=
  match parseInt (house.field "price") with
  | .ok priceNumber => jsLe priceNumber maxPrice
  | .error _ => false

/-- The record's `price` has a string form: `parseInt(house.price)` does not throw.
It fails only for a price that is an object with an own `toString` property, or an
array that holds such an object. -/
def PriceReadable (house : JSValue) : Prop :=
  ∃ text, (house.field "price").toJSString = .ok text

/-- Every record's `price` has a string form. -/
def PricesReadable (records : List JSValue) : Prop :=
  ∀ r ∈ records, PriceReadable r

/-- The threshold the `max_price` filter compares with, when `parseInt` of the
parameter does not throw. -/
def thresholdOf (queryParams : JSValue) : JSNumber :=
  match parseInt (queryParams.field "max_price") with
  | .ok maxPrice => maxPrice
  | .error _ => .nan

/-- The object the projection builds for a record. -/
def projection (house : JSValue) : JSValue :=
  .obj [("house", .obj [("price", house.field "price"), ("area", house.field "area"),
    ("furnishingstatus", house.field "furnishingstatus")])]

/-- Every element of the list admits property access (none is `null` or `undefined`). -/
def AllRecords (records : List JSValue) : Prop :=
  ∀ r ∈ records, r.isNullish = false

/-- The integer `parseInt` reads from a record's `price`, before it is rounded to
a Number; `none` when the field is missing or has no leading digits. -/
def priceInteger (house : JSValue) : Option Int :=
  match (house.field "price").toJSString with
  | .ok text => parseIntExact text
  | .error _ => none

/-- Whether the integer `parseInt` reads from the record's `price` is at most `T`;
false when it reads none. -/
def priceAtMost (T : Int) (house : JSValue) : Bool :=
  match priceInteger house with
  | some p => decide (p ≤ T)
  | none => false

/-- Whether the request activates the `furnished` filter. -/
def furnishedActive (queryParams : JSValue) : Bool :=
  strictEqString (queryParams.field "furnished") "true"

/-- Whether the request activates the `max_price` filter. -/
def maxPriceActive (queryParams : JSValue) : Bool :=
  truthy (queryParams.field "max_price")

/-- The records a request selects, among records that admit property access and
whose prices have a string form. -/
def selected (queryParams : JSValue) (records : List JSValue) : List JSValue :=
  let afterFurnished :=
    if furnishedActive queryParams then records.filter furnishedOk else records
  if maxPriceActive queryParams then
    afterFurnished.filter (priceOk (thresholdOf queryParams))
  else afterFurnished

/-- The two filters in the order of the code: lines 43-45, then lines 51-53. -/
def furnishedThenPrice (maxPrice : JSNumber) (houses : JSValue) : Except Fault JSValue :=
  match callFilter houses isFurnished with
  | .error e => .error e
  | .ok kept => callFilter kept (withinMaxPrice maxPrice)

/-- The two filters in the other order: lines 51-53, then lines 43-45. -/
def priceThenFurnished (maxPrice : JSNumber) (houses : JSValue) : Except Fault JSValue :=
  match callFilter houses (withinMaxPrice maxPrice) with
  | .error e => .error e
  | .ok kept => callFilter kept isFurnished

/-- The response written for a request, when the process is running and no fault
leaves the handler. -/
def responseOf (served : Option (Except Fault Handled)) : Option Response :=
  match served with
  | some (.ok h) => some h.response
  | _ => none

/-- The response a `GET` request gets, from the outcome of the handler's `try` block. -/
def responseOfOutcome (outcome : Except Fault String) : Response :=
  match outcome with
  | .ok xmlData => okXml xmlData
  | .error _ => internalServerError

/-- The ten decimal digits. -/
def decimalDigits : List Char :=
  ['0', '1', '2', '3', '4', '5', '6', '7', '8', '9']

/-! ## The examples -/

/-- The two records of the specification's example. -/
def exampleRecords : List JSValue :=
  [.obj [("price", .str "13300000"), ("area", .str "7420"),
      ("furnishingstatus", .str "furnished")],
   .obj [("price", .str "12250000"), ("area", .str "8960"),
      ("furnishingstatus", .str "unfurnished")]]

/-- The text of the example's input file. -/
def exampleData : String :=
  "[\x7b\"price\":\"13300000\",\"area\":\"7420\",\"furnishingstatus\":\"furnished\"\x7d," ++
  "\x7b\"price\":\"12250000\",\"area\":\"8960\",\"furnishingstatus\":\"unfurnished\"\x7d]"

/-- An environment for the examples: `JSON.parse` answers on the example text, on
`[]`, on `[null]` and on the empty object; URL parsing answers on the URLs the
examples use; the XML text is a placeholder, since the examples do not depend on
it. -/
def exampleEnv : Env where
  jsonParse := fun data =>
    if data = exampleData then .ok (.arr exampleRecords)
    else if data = "[]" then .ok (.arr [])
    else if data = "[null]" then .ok (.arr [.null])
    else if data = "\x7b\x7d" then .ok (.obj [])
    else .error (.external "SyntaxError")
  parseUrl := fun url =>
    if url = "/?furnished=true" then .ok [("furnished", "true")]
    else if url = "/" then .ok []
    else .error (.external "Invalid URL")
  build := fun _ => .ok "(xml)"

/-- A record with a numeric price, an extra field, and neither `area` nor
`furnishingstatus`. -/
def sparseRecords : List JSValue :=
  [.obj [("id", .num "7"), ("price", .num "5")]]

/-- An environment whose `JSON.parse` answers on the text of `sparseRecords`. -/
def sparseEnv : Env where
  jsonParse := fun data =>
    if data = "[\x7b\"id\":7,\"price\":5\x7d]" then .ok (.arr sparseRecords)
    else .error (.external "SyntaxError")
  parseUrl := exampleEnv.parseUrl
  build := exampleEnv.build

/-- A record whose price is the odd integer `2 ^ 53 + 1`. -/
def roundedRecords : List JSValue :=
  [.obj [("price", .str "9007199254740993"), ("area", .str "1000"),
    ("furnishingstatus", .str "furnished")]]

/-- The text of a file holding `roundedRecords`. -/
def roundedData : String :=
  "[\x7b\"price\":\"9007199254740993\",\"area\":\"1000\",\"furnishingstatus\":\"furnished\"\x7d]"

/-- An environment whose `JSON.parse` answers on `roundedData`. -/
def roundedEnv : Env where
  jsonParse := fun data =>
    if data = roundedData then .ok (.arr roundedRecords)
    else .error (.external "SyntaxError")
  parseUrl := exampleEnv.parseUrl
  build := exampleEnv.build

/-- A record whose price is the number `1e21`, whose string form is `1e+21`. -/
def exponentRecords : List JSValue :=
  [.obj [("price", .num "1e+21")]]

/-- The text of a file holding `exponentRecords`. -/
def exponentData : String :=
  "[\x7b\"price\":1e21\x7d]"

/-- Two records, the second with a price that is an object with an own `toString`
property. -/
def unreadableRecords : List JSValue :=
  [.obj [("price", .str "1")], .obj [("price", .obj [("toString", .num "1")])]]

/-- The text of a file holding `unreadableRecords`. -/
def unreadableData : String :=
  "[\x7b\"price\":\"1\"\x7d,\x7b\"price\":\x7b\"toString\":1\x7d\x7d]"

/-- A record whose price is an array that holds an object with an own `toString`
property. -/
def nestedRecords : List JSValue :=
  [.obj [("price", .arr [.num "3", .obj [("toString", .str "x")]])]]

/-- The text of a file holding `nestedRecords`. -/
def nestedData : String :=
  "[\x7b\"price\":[3,\x7b\"toString\":\"x\"\x7d]\x7d]"

/-- An unfurnished record whose price is an object with an own `toString` property. -/
def unfurnishedRecords : List JSValue :=
  [.obj [("price", .obj [("toString", .num "1")]), ("furnishingstatus", .str "unfurnished")]]

/-- The text of a file holding `unfurnishedRecords`. -/
def unfurnishedData : String :=
  "[\x7b\"price\":\x7b\"toString\":1\x7d,\"furnishingstatus\":\"unfurnished\"\x7d]"

/-- An environment whose `JSON.parse` answers on the four texts above. -/
def edgeEnv : Env where
  jsonParse := fun data =>
    if data = exponentData then .ok (.arr exponentRecords)
    else if data = unreadableData then .ok (.arr unreadableRecords)
    else if data = nestedData then .ok (.arr nestedRecords)
    else if data = unfurnishedData then .ok (.arr unfurnishedRecords)
    else .error (.external "SyntaxError")
  parseUrl := exampleEnv.parseUrl
  build := exampleEnv.build

/-! ## Lemmas on the pipeline -/

theorem getProp_ok {v : JSValue} (h : v.isNullish = false) (key : String) :
    getProp v key = .ok (v.field key) := by
  simp [getProp, h]

theorem allRecords_cons {x : JSValue} {rest : List JSValue} (h : AllRecords (x :: rest)) :
    x.isNullish = false ∧ AllRecords rest :=
  ⟨h x (List.mem_cons_self x rest), fun r hr => h r (List.mem_cons_of_mem x hr)⟩

theorem allRecords_filter {records : List JSValue} (p : JSValue → Bool)
    (h : AllRecords records) : AllRecords (records.filter p) :=
  fun r hr => h r (List.mem_of_mem_filter hr)

theorem isFurnished_ok {house : JSValue} (h : house.isNullish = false) :
    isFurnished house = .ok (furnishedOk house) := by
  simp [isFurnished, getProp_ok h, furnishedOk]

theorem withinMaxPrice_ok (maxPrice : JSNumber) {house : JSValue}
    (h : house.isNullish = false) (hp : PriceReadable house) :
    withinMaxPrice maxPrice house = .ok (priceOk maxPrice house) := by
  obtain ⟨text, ht⟩ := hp
  simp only [withinMaxPrice, getProp_ok h, priceOk, parseInt, ht]

theorem withinMaxPrice_throws (maxPrice : JSNumber) {house : JSValue}
    (h : house.isNullish = false) {e : Fault}
    (hp : (house.field "price").toJSString = .error e) :
    withinMaxPrice maxPrice house = .error e := by
  simp only [withinMaxPrice, getProp_ok h, parseInt, hp]

theorem pricesReadable_filter {records : List JSValue} (p : JSValue → Bool)
    (h : PricesReadable records) : PricesReadable (records.filter p) :=
  fun r hr => h r (List.mem_of_mem_filter hr)

theorem parseInt_str (text : String) : parseInt (.str text) = .ok (parseIntString text) :=
  rfl

theorem thresholdOf_str {queryParams : JSValue} {text : String}
    (h : queryParams.field "max_price" = .str text) :
    thresholdOf queryParams = parseIntString text := by
  simp only [thresholdOf, h, parseInt_str]

theorem projectHouse_ok {house : JSValue} (h : house.isNullish = false) :
    projectHouse house = .ok (projection house) := by
  simp [projectHouse, getProp_ok h, projection]

theorem filterArray_ok (keep : JSValue → Except Fault Bool) (p : JSValue → Bool)
    (records : List JSValue)
    (hkeep : ∀ r ∈ records, keep r = .ok (p r)) :
    filterArray keep records = .ok (records.filter p) := by
  induction records with
  | nil => rfl
  | cons x rest ih =>
      have hx := hkeep x (List.mem_cons_self x rest)
      have hrest := ih (fun r hr => hkeep r (List.mem_cons_of_mem x hr))
      simp only [filterArray, hx, hrest, List.filter_cons]

theorem mapArray_ok (f : JSValue → Except Fault JSValue) (g : JSValue → JSValue)
    (records : List JSValue)
    (hf : ∀ r ∈ records, f r = .ok (g r)) :
    mapArray f records = .ok (records.map g) := by
  induction records with
  | nil => rfl
  | cons x rest ih =>
      have hx := hf x (List.mem_cons_self x rest)
      have hrest := ih (fun r hr => hf r (List.mem_cons_of_mem x hr))
      simp only [mapArray, hx, hrest, List.map_cons]

theorem callFilter_isFurnished {records : List JSValue} (h : AllRecords records) :
    callFilter (.arr records) isFurnished = .ok (.arr (records.filter furnishedOk)) := by
  simp only [callFilter,
    filterArray_ok isFurnished furnishedOk records (fun r hr => isFurnished_ok (h r hr))]

theorem callFilter_withinMaxPrice (maxPrice : JSNumber) {records : List JSValue}
    (h : AllRecords records) (hp : PricesReadable records) :
    callFilter (.arr records) (withinMaxPrice maxPrice)
      = .ok (.arr (records.filter (priceOk maxPrice))) := by
  simp only [callFilter,
    filterArray_ok (withinMaxPrice maxPrice) (priceOk maxPrice) records
      (fun r hr => withinMaxPrice_ok maxPrice (h r hr) (hp r hr))]

theorem callMap_projectHouse {records : List JSValue} (h : AllRecords records) :
    callMap (.arr records) projectHouse = .ok (.arr (records.map projection)) := by
  simp only [callMap,
    mapArray_ok projectHouse projection records (fun r hr => projectHouse_ok (h r hr))]

theorem allRecords_selected (queryParams : JSValue) {records : List JSValue}
    (h : AllRecords records) : AllRecords (selected queryParams records) := by
  unfold selected
  by_cases hf : furnishedActive queryParams = true <;>
    by_cases hm : maxPriceActive queryParams = true <;>
    simp only [hf, hm, if_true, if_false] <;>
    first
      | exact h
      | exact allRecords_filter _ h
      | exact allRecords_filter _ (allRecords_filter _ h)

theorem furnishedStep_ok {queryParams : JSValue} (hq : queryParams.isNullish = false)
    {records : List JSValue} (h : AllRecords records) :
    furnishedStep queryParams (.arr records)
      = .ok (.arr (if furnishedActive queryParams then records.filter furnishedOk
          else records)) := by
  unfold furnishedStep
  simp only [getProp_ok hq, furnishedActive]
  by_cases hf : strictEqString (queryParams.field "furnished") "true" = true
  · simp only [hf, if_true, callFilter_isFurnished h]
  · simp only [hf, if_false]
    simp

theorem maxPriceStep_ok {queryParams : JSValue} (hq : queryParams.isNullish = false)
    {records : List JSValue} (h : AllRecords records)
    (hactive : maxPriceActive queryParams = true →
      (∃ m, parseInt (queryParams.field "max_price") = .ok m) ∧ PricesReadable records) :
    maxPriceStep queryParams (.arr records)
      = .ok (.arr (if maxPriceActive queryParams then
          records.filter (priceOk (thresholdOf queryParams))
          else records)) := by
  unfold maxPriceStep
  simp only [getProp_ok hq]
  by_cases hm : maxPriceActive queryParams = true
  · obtain ⟨⟨m, hparam⟩, hprices⟩ := hactive hm
    have hm2 : truthy (queryParams.field "max_price") = true := hm
    simp only [hm, hm2, if_true, hparam, thresholdOf, callFilter_withinMaxPrice m h hprices]
  · have hm2 : ¬ truthy (queryParams.field "max_price") = true := hm
    simp only [hm, hm2, if_false]
    simp

/-- The pipeline on a readable file that parses to an array of records, when the
price filter, if active, meets no price without a string form. -/
theorem processHouseData_ok (env : Env) (data : String) (queryParams : JSValue)
    (records : List JSValue)
    (hparse : env.jsonParse data = .ok (.arr records))
    (hq : queryParams.isNullish = false) (h : AllRecords records)
    (hactive : maxPriceActive queryParams = true →
      (∃ m, parseInt (queryParams.field "max_price") = .ok m) ∧
        PricesReadable (if furnishedActive queryParams then records.filter furnishedOk
          else records)) :
    processHouseData env (.ok data) queryParams
      = .ok (.obj [("houses", .arr ((selected queryParams records).map projection))]) := by
  have h1 : AllRecords (if furnishedActive queryParams then records.filter furnishedOk
      else records) := by
    by_cases hf : furnishedActive queryParams = true
    · simp only [hf, if_true]; exact allRecords_filter _ h
    · simp only [hf, if_false]; exact h
  have h2 := allRecords_selected queryParams h
  unfold processHouseData processHouseDataBody
  simp only [hparse, furnishedStep_ok hq h, maxPriceStep_ok hq h1 hactive]
  have hsel : (if maxPriceActive queryParams then
      (if furnishedActive queryParams then records.filter furnishedOk else records).filter
        (priceOk (thresholdOf queryParams))
      else (if furnishedActive queryParams then records.filter furnishedOk else records))
      = selected queryParams records := rfl
  rw [hsel]
  simp only [callMap_projectHouse h2]

/-- The pipeline when the price filter is not active. -/
theorem processHouseData_ok_inactive (env : Env) (data : String) (queryParams : JSValue)
    (records : List JSValue)
    (hparse : env.jsonParse data = .ok (.arr records))
    (hq : queryParams.isNullish = false) (h : AllRecords records)
    (hoff : maxPriceActive queryParams = false) :
    processHouseData env (.ok data) queryParams
      = .ok (.obj [("houses", .arr ((selected queryParams records).map projection))]) :=
  processHouseData_ok env data queryParams records hparse hq h
    (fun hon => by rw [hoff] at hon; exact Bool.noConfusion hon)

/-- The pipeline when `max_price` is a non-empty string and every price the filter
meets has a string form. -/
theorem processHouseData_ok_str (env : Env) (data : String) (queryParams : JSValue)
    (records : List JSValue) (text : String)
    (hparse : env.jsonParse data = .ok (.arr records))
    (hq : queryParams.isNullish = false) (h : AllRecords records)
    (hmax : queryParams.field "max_price" = .str text)
    (hprices : PricesReadable (if furnishedActive queryParams then
      records.filter furnishedOk else records)) :
    processHouseData env (.ok data) queryParams
      = .ok (.obj [("houses", .arr ((selected queryParams records).map projection))]) :=
  processHouseData_ok env data queryParams records hparse hq h
    (fun _ => ⟨⟨parseIntString text, by rw [hmax, parseInt_str]⟩, hprices⟩)

theorem exampleRecords_allRecords : AllRecords exampleRecords := by
  intro r hr
  simp only [exampleRecords, List.mem_cons, List.mem_singleton, List.not_mem_nil,
    or_false] at hr
  rcases hr with rfl | rfl <;> rfl

theorem exampleEnv_parse : exampleEnv.jsonParse exampleData = .ok (.arr exampleRecords) := by
  simp [exampleEnv]

theorem exampleRecords_pricesReadable : PricesReadable exampleRecords := by
  intro r hr
  simp only [exampleRecords, List.mem_cons, List.mem_singleton, List.not_mem_nil,
    or_false] at hr
  rcases hr with rfl | rfl <;> exact ⟨_, rfl⟩

theorem strictEqString_iff (v : JSValue) (s : String) :
    strictEqString v s = true ↔ v = .str s := by
  cases v <;> simp [strictEqString]

/-! ## Faults of the pipeline -/

/-- The loop of `filter` throws as soon as the callback throws on some element. -/
theorem filterArray_throws (keep : JSValue → Except Fault Bool) (items : List JSValue)
    (hthrow : ∃ r ∈ items, ∃ e, keep r = .error e) :
    ∃ e, filterArray keep items = .error e := by
  induction items with
  | nil =>
      obtain ⟨r, hr, _⟩ := hthrow
      simp at hr
  | cons x rest ih =>
      obtain ⟨r, hr, e, he⟩ := hthrow
      cases hk : keep x with
      | error e1 => exact ⟨e1, by simp only [filterArray, hk]⟩
      | ok kept =>
          rcases List.mem_cons.mp hr with hx | hrest
          · rw [hx, hk] at he
            exact Except.noConfusion he
          · obtain ⟨e2, he2⟩ := ih ⟨r, hrest, e, he⟩
            exact ⟨e2, by simp only [filterArray, hk, he2]⟩

theorem filterArray_null (keep : JSValue → Except Fault Bool)
    (hnull : ∃ e, keep .null = .error e) (items : List JSValue) (hmem : JSValue.null ∈ items) :
    ∃ e, filterArray keep items = .error e :=
  filterArray_throws keep items ⟨.null, hmem, hnull⟩

/-- What the loop of `filter` returns is a sublist of its input. -/
theorem filterArray_sublist (keep : JSValue → Except Fault Bool) :
    ∀ (items kept : List JSValue), filterArray keep items = .ok kept → kept.Sublist items := by
  intro items
  induction items with
  | nil =>
      intro kept h
      simp only [filterArray, Except.ok.injEq] at h
      rw [← h]
  | cons x rest ih =>
      intro kept h
      cases hk : keep x with
      | error e => simp only [filterArray, hk] at h; exact Except.noConfusion h
      | ok flag =>
          cases hr : filterArray keep rest with
          | error e => simp only [filterArray, hk, hr] at h; exact Except.noConfusion h
          | ok tail =>
              simp only [filterArray, hk, hr, Except.ok.injEq] at h
              rw [← h]
              cases flag with
              | true => exact (ih tail hr).cons₂ x
              | false => exact (ih tail hr).cons x

theorem callFilter_sublist (keep : JSValue → Except Fault Bool) (items : List JSValue)
    (v : JSValue) (h : callFilter (.arr items) keep = .ok v) :
    ∃ kept, v = .arr kept ∧ kept.Sublist items := by
  cases hr : filterArray keep items with
  | error e => simp only [callFilter, hr] at h; exact Except.noConfusion h
  | ok kept =>
      simp only [callFilter, hr, Except.ok.injEq] at h
      exact ⟨kept, h.symm, filterArray_sublist keep items kept hr⟩

theorem furnishedStep_sublist (queryParams : JSValue) (items : List JSValue) (v : JSValue)
    (h : furnishedStep queryParams (.arr items) = .ok v) :
    ∃ kept, v = .arr kept ∧ kept.Sublist items := by
  unfold furnishedStep at h
  cases hq : getProp queryParams "furnished" with
  | error e => simp only [hq] at h; exact Except.noConfusion h
  | ok furnished =>
      simp only [hq] at h
      by_cases hf : strictEqString furnished "true" = true
      · simp only [hf, if_true] at h
        exact callFilter_sublist _ items v h
      · simp only [hf, Bool.false_eq_true, if_false, Except.ok.injEq] at h
        exact ⟨items, h.symm, List.Sublist.refl _⟩

theorem maxPriceStep_sublist (queryParams : JSValue) (items : List JSValue) (v : JSValue)
    (h : maxPriceStep queryParams (.arr items) = .ok v) :
    ∃ kept, v = .arr kept ∧ kept.Sublist items := by
  unfold maxPriceStep at h
  cases hq : getProp queryParams "max_price" with
  | error e => simp only [hq] at h; exact Except.noConfusion h
  | ok maxPriceParam =>
      simp only [hq] at h
      by_cases hm : truthy maxPriceParam = true
      · simp only [hm, if_true] at h
        cases hp : parseInt maxPriceParam with
        | error e => simp only [hp] at h; exact Except.noConfusion h
        | ok maxPrice =>
            simp only [hp] at h
            exact callFilter_sublist _ items v h
      · simp only [hm, Bool.false_eq_true, if_false, Except.ok.injEq] at h
        exact ⟨items, h.symm, List.Sublist.refl _⟩

/-- Whenever the pipeline returns, it returns the projections of a sublist of the
parsed records. -/
theorem processHouseData_shape (env : Env) (data : String) (queryParams : JSValue)
    (records : List JSValue) (result : JSValue)
    (hparse : env.jsonParse data = .ok (.arr records))
    (h : AllRecords records)
    (hresult : processHouseData env (.ok data) queryParams = .ok result) :
    ∃ survivors : List JSValue, survivors.Sublist records ∧
      result = .obj [("houses", .arr (survivors.map projection))] := by
  unfold processHouseData processHouseDataBody at hresult
  simp only [hparse] at hresult
  cases h1 : furnishedStep queryParams (.arr records) with
  | error e => simp only [h1] at hresult; exact Except.noConfusion hresult
  | ok afterFurnished =>
      obtain ⟨kept1, hk1, hs1⟩ := furnishedStep_sublist queryParams records afterFurnished h1
      subst hk1
      simp only [h1] at hresult
      cases h2 : maxPriceStep queryParams (.arr kept1) with
      | error e => simp only [h2] at hresult; exact Except.noConfusion hresult
      | ok filteredHouses =>
          obtain ⟨kept2, hk2, hs2⟩ := maxPriceStep_sublist queryParams kept1 filteredHouses h2
          subst hk2
          have hall : AllRecords kept2 := fun r hr => h r ((hs2.trans hs1).subset hr)
          simp only [h2, callMap_projectHouse hall, Except.ok.injEq] at hresult
          exact ⟨kept2, hs2.trans hs1, hresult.symm⟩

/-- The price filter throws when it meets a record whose price has no string form. -/
theorem maxPriceStep_throws {queryParams : JSValue} (hq : queryParams.isNullish = false)
    (hactive : maxPriceActive queryParams = true) (records : List JSValue)
    (hbad : ∃ r ∈ records, r.isNullish = false ∧
      ∃ e, (r.field "price").toJSString = .error e) :
    ∃ e, maxPriceStep queryParams (.arr records) = .error e := by
  have hm : truthy (queryParams.field "max_price") = true := hactive
  unfold maxPriceStep
  simp only [getProp_ok hq, hm, if_true]
  cases hp : parseInt (queryParams.field "max_price") with
  | error e => exact ⟨e, rfl⟩
  | ok maxPrice =>
      obtain ⟨r, hr, hnn, e, he⟩ := hbad
      obtain ⟨e2, he2⟩ := filterArray_throws (withinMaxPrice maxPrice) records
        ⟨r, hr, e, withinMaxPrice_throws maxPrice hnn he⟩
      exact ⟨e2, by simp only [callFilter, he2]⟩

/-- The pipeline throws when the price filter is active and a record it meets has a
price without a string form. -/
theorem processHouseData_price_throws (env : Env) (data : String) (queryParams : JSValue)
    (records : List JSValue)
    (hparse : env.jsonParse data = .ok (.arr records))
    (hq : queryParams.isNullish = false) (h : AllRecords records)
    (hactive : maxPriceActive queryParams = true)
    (hbad : ∃ r ∈ (if furnishedActive queryParams then records.filter furnishedOk
        else records), ∃ e, (r.field "price").toJSString = .error e) :
    ∃ e, processHouseData env (.ok data) queryParams = .error e := by
  have h1 : AllRecords (if furnishedActive queryParams then records.filter furnishedOk
      else records) := by
    by_cases hf : furnishedActive queryParams = true
    · simp only [hf, if_true]; exact allRecords_filter _ h
    · simp only [hf, if_false]; exact h
  obtain ⟨r, hr, e, he⟩ := hbad
  obtain ⟨e2, he2⟩ := maxPriceStep_throws hq hactive _ ⟨r, hr, h1 r hr, e, he⟩
  refine ⟨.wrapped e2, ?_⟩
  unfold processHouseData processHouseDataBody
  simp only [hparse, furnishedStep_ok hq h, he2]

theorem mapArray_null (f : JSValue → Except Fault JSValue)
    (hnull : ∃ e, f .null = .error e) (items : List JSValue) (hmem : JSValue.null ∈ items) :
    ∃ e, mapArray f items = .error e := by
  induction items with
  | nil => simp at hmem
  | cons x rest ih =>
      rcases List.mem_cons.mp hmem with hx | hrest
      · obtain ⟨e, he⟩ := hnull
        exact ⟨e, by simp only [mapArray, ← hx, he]⟩
      · obtain ⟨e, he⟩ := ih hrest
        cases hk : f x with
        | error e1 => exact ⟨e1, by simp only [mapArray, hk]⟩
        | ok y => exact ⟨e, by simp only [mapArray, hk, he]⟩

theorem callFilter_null (keep : JSValue → Except Fault Bool)
    (hnull : ∃ e, keep .null = .error e) (items : List JSValue) (hmem : JSValue.null ∈ items) :
    ∃ e, callFilter (.arr items) keep = .error e := by
  obtain ⟨e, he⟩ := filterArray_null keep hnull items hmem
  exact ⟨e, by simp only [callFilter, he]⟩

theorem callFilter_not_array (keep : JSValue → Except Fault Bool) (v : JSValue)
    (hv : ∀ items, v ≠ .arr items) : ∃ e, callFilter v keep = .error e := by
  cases v with
  | arr items => exact absurd rfl (hv items)
  | undefined => exact ⟨_, rfl⟩
  | null => exact ⟨_, rfl⟩
  | bool b => exact ⟨_, rfl⟩
  | num t => exact ⟨_, rfl⟩
  | str t => exact ⟨_, rfl⟩
  | obj fields => exact ⟨_, rfl⟩

theorem callMap_not_array (f : JSValue → Except Fault JSValue) (v : JSValue)
    (hv : ∀ items, v ≠ .arr items) : ∃ e, callMap v f = .error e := by
  cases v with
  | arr items => exact absurd rfl (hv items)
  | undefined => exact ⟨_, rfl⟩
  | null => exact ⟨_, rfl⟩
  | bool b => exact ⟨_, rfl⟩
  | num t => exact ⟨_, rfl⟩
  | str t => exact ⟨_, rfl⟩
  | obj fields => exact ⟨_, rfl⟩

/-- A filter step either throws or hands its input on unchanged, as soon as the
method call it would make throws. -/
theorem furnishedStep_stuck (queryParams houses : JSValue)
    (hcall : ∃ e, callFilter houses isFurnished = .error e) :
    (∃ e, furnishedStep queryParams houses = .error e)
      ∨ furnishedStep queryParams houses = .ok houses := by
  unfold furnishedStep
  cases hq : getProp queryParams "furnished" with
  | error e => exact Or.inl ⟨e, rfl⟩
  | ok furnished =>
      by_cases hf : strictEqString furnished "true" = true
      · simp only [hf, if_true]; exact Or.inl hcall
      · simp only [hf]; exact Or.inr rfl

theorem maxPriceStep_stuck (queryParams houses : JSValue)
    (hcall : ∀ m, ∃ e, callFilter houses (withinMaxPrice m) = .error e) :
    (∃ e, maxPriceStep queryParams houses = .error e)
      ∨ maxPriceStep queryParams houses = .ok houses := by
  unfold maxPriceStep
  cases hq : getProp queryParams "max_price" with
  | error e => exact Or.inl ⟨e, rfl⟩
  | ok maxPriceParam =>
      by_cases hm : truthy maxPriceParam = true
      · simp only [hm, if_true]
        cases hp : parseInt maxPriceParam with
        | error e => exact Or.inl ⟨e, rfl⟩
        | ok maxPrice => exact Or.inl (hcall maxPrice)
      · simp only [hm]; exact Or.inr rfl

/-- The pipeline throws on a parsed value on which every method call throws. -/
theorem processHouseData_stuck (env : Env) (data : String) (queryParams houses : JSValue)
    (hparse : env.jsonParse data = .ok houses)
    (hfurnished : ∃ e, callFilter houses isFurnished = .error e)
    (hmax : ∀ m, ∃ e, callFilter houses (withinMaxPrice m) = .error e)
    (hmap : ∃ e, callMap houses projectHouse = .error e) :
    ∃ e, processHouseData env (.ok data) queryParams = .error e := by
  unfold processHouseData processHouseDataBody
  simp only [hparse]
  rcases furnishedStep_stuck queryParams houses hfurnished with ⟨e, he⟩ | h1
  · exact ⟨.wrapped e, by simp only [he]⟩
  · rcases maxPriceStep_stuck queryParams houses hmax with ⟨e, he⟩ | h2
    · exact ⟨.wrapped e, by simp only [h1, he]⟩
    · obtain ⟨e, he⟩ := hmap
      exact ⟨.wrapped e, by simp only [h1, h2, he]⟩

theorem handleRequest_get_ok (env : Env) (file : Except Fault String) (req : Request)
    (hget : req.method = "GET") {xmlData : String} {calls : List Call}
    (hg : handleGet env file req = (.ok xmlData, calls)) :
    handleRequest env file req
      = .ok ⟨okXml xmlData,
          .consoleLog ("Отримано запит: " ++ req.method ++ " " ++ req.url) :: calls⟩ := by
  simp only [handleRequest, hget, hg, ne_eq, not_true_eq_false, if_false]

theorem handleRequest_get_error (env : Env) (file : Except Fault String) (req : Request)
    (hget : req.method = "GET") {e : Fault} {calls : List Call}
    (hg : handleGet env file req = (.error e, calls)) :
    handleRequest env file req
      = .ok ⟨internalServerError,
          .consoleLog ("Отримано запит: " ++ req.method ++ " " ++ req.url)
            :: calls ++ [.consoleError e]⟩ := by
  simp only [handleRequest, hget, hg, ne_eq, not_true_eq_false, if_false]

theorem jsLe_nan_right (a : JSNumber) : jsLe a .nan = false := by
  cases a <;> rfl

theorem filter_priceOk_nan (records : List JSValue) :
    records.filter (priceOk .nan) = [] := by
  apply List.filter_eq_nil_iff.mpr
  intro r _
  unfold priceOk
  cases parseInt (r.field "price") with
  | error e => simp
  | ok n => simp [jsLe_nan_right]

theorem handleRequest_get_response (env : Env) (file : Except Fault String) (req : Request)
    (hget : req.method = "GET") :
    ∃ calls, handleRequest env file req
      = .ok ⟨responseOfOutcome (handleGet env file req).1, calls⟩ := by
  cases hg : handleGet env file req with
  | mk outcome calls =>
      cases outcome with
      | ok xmlData => exact ⟨_, handleRequest_get_ok env file req hget hg⟩
      | error e => exact ⟨_, handleRequest_get_error env file req hget hg⟩

theorem handleGet_outcome (env : Env) (file : Except Fault String) (req : Request) :
    (handleGet env file req).1
      = match env.parseUrl req.url with
        | .error e => .error e
        | .ok entries =>
            match processHouseData env file (fromEntries entries) with
            | .error e => .error e
            | .ok processedData => env.build processedData := by
  unfold handleGet
  cases env.parseUrl req.url with
  | error e => rfl
  | ok entries =>
      simp only
      cases processHouseData env file (fromEntries entries) with
      | error e => rfl
      | ok processedData =>
          simp only
          cases env.build processedData <;> rfl

/-! ## Decimal renderings and `parseInt` -/

theorem digitChar_decimal (k : Nat) (hk : k < 10) :
    Nat.digitChar k ∈ decimalDigits ∧ digitValue (Nat.digitChar k) = some k := by
  interval_cases k <;> exact ⟨by decide, by decide⟩

theorem toDigitsCore_decimal (fuel : Nat) :
    ∀ (n : Nat) (ds : List Char), n < fuel →
      ∃ L, Nat.toDigitsCore 10 fuel n ds = L ++ ds ∧ L ≠ [] ∧
        (∀ c ∈ L, c ∈ decimalDigits) ∧
        ∀ acc, L.foldl (fun a c => a * 10 + (digitValue c).getD 0) acc
          = acc * 10 ^ L.length + n := by
  induction fuel with
  | zero => intro n ds h; omega
  | succ fuel ih =>
      intro n ds hn
      obtain ⟨hmem, hval⟩ := digitChar_decimal (n % 10) (Nat.mod_lt n (by decide))
      by_cases hzero : n / 10 = 0
      · refine ⟨[Nat.digitChar (n % 10)], ?_, by simp, ?_, ?_⟩
        · simp [Nat.toDigitsCore, hzero]
        · intro c hc
          rw [List.mem_singleton.mp hc]
          exact hmem
        · intro acc
          simp only [List.foldl_cons, List.foldl_nil, hval, Option.getD_some,
            List.length_singleton, pow_one]
          omega
      · have hlt : n / 10 < fuel := by omega
        obtain ⟨L, hL, _, hdigits, hfold⟩ := ih (n / 10) (Nat.digitChar (n % 10) :: ds) hlt
        refine ⟨L ++ [Nat.digitChar (n % 10)], ?_, by simp, ?_, ?_⟩
        · simp [Nat.toDigitsCore, hzero, hL]
        · intro c hc
          rcases List.mem_append.mp hc with h | h
          · exact hdigits c h
          · rw [List.mem_singleton.mp h]
            exact hmem
        · intro acc
          simp only [List.foldl_append, List.foldl_cons, List.foldl_nil, hfold, hval,
            Option.getD_some, List.length_append, List.length_singleton, pow_succ]
          have := Nat.div_add_mod n 10
          nlinarith [this]

/-- The decimal rendering of a natural number is a non-empty run of decimal digits
whose value is the number. -/
theorem toDigits_decimal (n : Nat) :
    Nat.toDigits 10 n ≠ [] ∧ (∀ c ∈ Nat.toDigits 10 n, c ∈ decimalDigits) ∧
      digitsValue 10 (Nat.toDigits 10 n) = n := by
  obtain ⟨L, hL, hne, hdigits, hfold⟩ := toDigitsCore_decimal (n + 1) n [] (Nat.lt_succ_self n)
  have hL2 : Nat.toDigits 10 n = L := by simpa [Nat.toDigits] using hL
  rw [hL2]
  refine ⟨hne, hdigits, ?_⟩
  have := hfold 0
  simpa [digitsValue] using this

theorem decimalDigits_facts :
    ∀ c ∈ decimalDigits, isStrWhiteSpaceChar c = false ∧ isRadixDigit 10 c = true ∧
      c ≠ '-' ∧ c ≠ '+' ∧ c ≠ 'x' ∧ c ≠ 'X' := by
  decide

theorem splitSign_decimal (L : List Char) (hdigits : ∀ c ∈ L, c ∈ decimalDigits) :
    splitSign L = (false, L) := by
  unfold splitSign
  split
  · exact absurd rfl (decimalDigits_facts '-' (hdigits _ (List.mem_cons_self _ _))).2.2.1
  · exact absurd rfl (decimalDigits_facts '+' (hdigits _ (List.mem_cons_self _ _))).2.2.2.1
  · rfl

theorem splitRadix_decimal (L : List Char) (hdigits : ∀ c ∈ L, c ∈ decimalDigits) :
    splitRadix L = (10, L) := by
  unfold splitRadix
  split
  · exact absurd rfl (decimalDigits_facts 'x'
      (hdigits _ (List.mem_cons_of_mem _ (List.mem_cons_self _ _)))).2.2.2.2.1
  · exact absurd rfl (decimalDigits_facts 'X'
      (hdigits _ (List.mem_cons_of_mem _ (List.mem_cons_self _ _)))).2.2.2.2.2
  · rfl

theorem dropWhile_decimal (L : List Char) (hdigits : ∀ c ∈ L, c ∈ decimalDigits) :
    L.dropWhile isStrWhiteSpaceChar = L := by
  cases L with
  | nil => rfl
  | cons c t =>
      have h := (decimalDigits_facts c (hdigits c (List.mem_cons_self c t))).1
      simp [List.dropWhile_cons, h]

theorem takeWhile_decimal (L : List Char) (hdigits : ∀ c ∈ L, c ∈ decimalDigits) :
    L.takeWhile (isRadixDigit 10) = L := by
  induction L with
  | nil => rfl
  | cons c t ih =>
      have h := (decimalDigits_facts c (hdigits c (List.mem_cons_self c t))).2.1
      simp [List.takeWhile_cons, h, ih (fun d hd => hdigits d (List.mem_cons_of_mem c hd))]

/-- What `parseInt` reads from a non-empty run of decimal digits, with or without
a minus sign in front. -/
theorem parseIntParts_decimal (s : String) (negative : Bool) (L : List Char)
    (hs : s.toList = if negative then '-' :: L else L)
    (hne : L ≠ []) (hdigits : ∀ c ∈ L, c ∈ decimalDigits) :
    parseIntParts s = some (negative, digitsValue 10 L) := by
  have hempty : L.isEmpty = false := by
    cases L with
    | nil => exact absurd rfl hne
    | cons c t => rfl
  unfold parseIntParts
  rw [hs]
  cases negative with
  | false =>
      simp only [Bool.false_eq_true, if_false, dropWhile_decimal L hdigits,
        splitSign_decimal L hdigits, splitRadix_decimal L hdigits,
        takeWhile_decimal L hdigits, hempty]
  | true =>
      have hdrop : ('-' :: L).dropWhile isStrWhiteSpaceChar = '-' :: L := by
        simp [List.dropWhile_cons, show isStrWhiteSpaceChar '-' = false by decide]
      have hsign : splitSign ('-' :: L) = (true, L) := rfl
      simp only [if_true, hdrop, hsign, splitRadix_decimal L hdigits,
        takeWhile_decimal L hdigits, hempty, Bool.false_eq_true, if_false]

/-- The characters of the decimal rendering of an integer. -/
theorem toString_int_toList (T : Int) :
    (toString T).toList
      = if decide (T < 0) then '-' :: Nat.toDigits 10 T.natAbs else Nat.toDigits 10 T.natAbs := by
  cases T with
  | ofNat m =>
      have : ¬ ((Int.ofNat m) < 0) := by simp
      simp only [this, decide_False, Bool.false_eq_true, if_false]
      show (Nat.repr m).toList = _
      rfl
  | negSucc m =>
      have : (Int.negSucc m) < 0 := Int.negSucc_lt_zero m
      simp only [this, decide_True, if_true]
      show ("-" ++ Nat.repr (m + 1)).toList = _
      rfl

/-- `parseInt` reads from the decimal rendering of an integer its sign and its
absolute value. -/
theorem parseIntParts_toString (T : Int) :
    parseIntParts (toString T) = some (decide (T < 0), T.natAbs) := by
  obtain ⟨hne, hdigits, hvalue⟩ := toDigits_decimal T.natAbs
  rw [parseIntParts_decimal (toString T) (decide (T < 0)) (Nat.toDigits 10 T.natAbs)
    (toString_int_toList T) hne hdigits, hvalue]

theorem toString_int_ne_empty (T : Int) : toString T ≠ "" := by
  intro h
  have h1 := parseIntParts_toString T
  rw [h] at h1
  have h2 : parseIntParts "" = none := by decide
  rw [h2] at h1
  exact Option.noConfusion h1

/-! ## Rounding to a double -/

theorem excessBitsAux_small (fuel n : Nat) (h : n < 2 ^ 53) : excessBitsAux fuel n = 0 := by
  cases fuel with
  | zero => rfl
  | succ fuel => simp only [excessBitsAux, h, if_true]

theorem excessBitsAux_large (fuel : Nat) :
    ∀ n, n ≤ fuel → 2 ^ 53 ≤ n →
      1 ≤ excessBitsAux fuel n ∧ 2 ^ 52 ≤ n / 2 ^ excessBitsAux fuel n := by
  induction fuel with
  | zero =>
      intro n h0 hbig
      have : 0 < 2 ^ 53 := by positivity
      omega
  | succ fuel ih =>
      intro n hle hbig
      have hnot : ¬ n < 2 ^ 53 := not_lt.mpr hbig
      simp only [excessBitsAux, hnot, if_false]
      have hpow : (2 : Nat) ^ 53 = 2 * 2 ^ 52 := by norm_num
      have hhalf : n / 2 ≤ fuel := by omega
      by_cases hsmall : n / 2 < 2 ^ 53
      · rw [excessBitsAux_small fuel (n / 2) hsmall]
        refine ⟨le_refl 1, ?_⟩
        simp only [zero_add, pow_one]
        omega
      · obtain ⟨_, h2⟩ := ih (n / 2) hhalf (not_lt.mp hsmall)
        refine ⟨Nat.le_add_left 1 _, ?_⟩
        have hdiv : ∀ e : Nat, n / 2 ^ (e + 1) = n / 2 / 2 ^ e := by
          intro e
          rw [pow_succ, Nat.mul_comm, Nat.div_div_eq_div_mul]
        rw [hdiv]
        exact h2

theorem roundToDouble_small (n : Nat) (h : n < 2 ^ 53) : roundToDouble n = some n := by
  simp only [roundToDouble, h, if_true]

/-- A number of 54 bits or more rounds to a double of at least `2 ^ 53`, or to
`Infinity`. -/
theorem roundToDouble_large (n v : Nat) (hbig : 2 ^ 53 ≤ n) (hv : roundToDouble n = some v) :
    2 ^ 53 ≤ v := by
  obtain ⟨he, hq⟩ := excessBitsAux_large n n (le_refl n) hbig
  have hnot : ¬ n < 2 ^ 53 := not_lt.mpr hbig
  unfold roundToDouble at hv
  simp only [hnot, if_false] at hv
  unfold excessBits at hv
  generalize excessBitsAux n n = e at he hq hv
  generalize hq1 : (if 2 ^ (e - 1) < n % 2 ^ e ∨ n % 2 ^ e = 2 ^ (e - 1) ∧ n / 2 ^ e % 2 = 1
    then n / 2 ^ e + 1 else n / 2 ^ e) = q1 at hv
  have hq1le : n / 2 ^ e ≤ q1 := by
    rw [← hq1]
    split <;> omega
  split at hv
  · exact Option.noConfusion hv
  · have hveq : q1 * 2 ^ e = v := Option.some.inj hv
    have h2e : 2 ≤ 2 ^ e := by
      calc 2 = 2 ^ 1 := by norm_num
        _ ≤ 2 ^ e := Nat.pow_le_pow_right (by norm_num) he
    have hpow : (2 : Nat) ^ 53 = 2 ^ 52 * 2 := by norm_num
    rw [← hveq, hpow]
    exact Nat.mul_le_mul (le_trans hq hq1le) h2e

/-- Against a threshold that is a safe integer, `<=` on the Number `parseInt`
returns agrees with `≤` on the integer it read. -/
theorem jsLe_toNumber_safe (negative : Bool) (n : Nat) (T : Int)
    (hlo : -(2 ^ 53 : Int) < T) (hhi : T < 2 ^ 53) :
    jsLe (toNumber negative n) (.fin T)
      = decide ((if negative then -(n : Int) else (n : Int)) ≤ T) := by
  by_cases hsmall : n < 2 ^ 53
  · simp only [toNumber, roundToDouble_small n hsmall, jsLe]
  · have hbig : 2 ^ 53 ≤ n := not_lt.mp hsmall
    have hbigInt : (2 ^ 53 : Int) ≤ (n : Int) := by exact_mod_cast hbig
    cases hr : roundToDouble n with
    | none =>
        cases negative with
        | false =>
            simp only [toNumber, hr, jsLe, Bool.false_eq_true, if_false]
            exact (decide_eq_false (by omega)).symm
        | true =>
            simp only [toNumber, hr, jsLe, if_true]
            exact (decide_eq_true (by omega)).symm
    | some v =>
        have hv : (2 ^ 53 : Int) ≤ (v : Int) := by
          exact_mod_cast roundToDouble_large n v hbig hr
        cases negative with
        | false =>
            simp only [toNumber, hr, jsLe, Bool.false_eq_true, if_false]
            rw [decide_eq_false (by omega), decide_eq_false (by omega)]
        | true =>
            simp only [toNumber, hr, jsLe, if_true]
            rw [decide_eq_true (by omega), decide_eq_true (by omega)]

/-- The Number value of a safe integer is the integer itself. -/
theorem numberOfInt_safe (T : Int) (hlo : -(2 ^ 53 : Int) < T) (hhi : T < 2 ^ 53) :
    numberOfInt T = .fin T := by
  have hsmall : T.natAbs < 2 ^ 53 := by omega
  simp only [numberOfInt, toNumber, roundToDouble_small _ hsmall]
  by_cases hneg : T < 0
  · simp only [hneg, decide_True, if_true]
    congr 1
    omega
  · simp only [hneg, decide_False, Bool.false_eq_true, if_false]
    congr 1
    omega

/-- The call `parseInt` on the decimal rendering of an integer returns the Number
value of that integer. -/
theorem parseIntString_toString (T : Int) : parseIntString (toString T) = numberOfInt T := by
  simp only [parseIntString, parseIntParts_toString, numberOfInt]

theorem priceOk_safe (T : Int) (hlo : -(2 ^ 53 : Int) < T) (hhi : T < 2 ^ 53)
    (house : JSValue) :
    priceOk (parseIntString (toString T)) house = priceAtMost T house := by
  rw [parseIntString_toString, numberOfInt_safe T hlo hhi]
  unfold priceOk priceAtMost priceInteger parseInt
  cases (house.field "price").toJSString with
  | error e => rfl
  | ok text =>
      simp only [parseIntString, parseIntExact]
      cases parseIntParts text with
      | none => rfl
      | some p =>
          obtain ⟨negative, n⟩ := p
          exact jsLe_toNumber_safe negative n T hlo hhi

theorem parseIntExact_toString (p : Int) : parseIntExact (toString p) = some p := by
  simp only [parseIntExact, parseIntParts_toString, Option.map_some']
  congr 1
  by_cases hneg : p < 0
  · simp only [hneg, decide_True, if_true]
    rw [Int.ofNat_natAbs_of_nonpos (le_of_lt hneg), neg_neg]
  · simp only [hneg, decide_False, Bool.false_eq_true, if_false]
    exact Int.natAbs_of_nonneg (not_lt.mp hneg)

/-- From a price that is the decimal rendering of an integer, as a string or as a
number, `parseInt` reads that integer. -/
theorem priceInteger_decimal (house : JSValue) (p : Int)
    (h : house.field "price" = .str (toString p) ∨ house.field "price" = .num (toString p)) :
    priceInteger house = some p := by
  unfold priceInteger
  rcases h with h | h
  · rw [h]
    exact parseIntExact_toString p
  · rw [h]
    exact parseIntExact_toString p

theorem priceAtMost_iff (T : Int) (house : JSValue) :
    priceAtMost T house = true ↔ ∃ p, priceInteger house = some p ∧ p ≤ T := by
  unfold priceAtMost
  cases priceInteger house with
  | none => simp
  | some p => simp

theorem roundedRecords_allRecords : AllRecords roundedRecords := by
  intro r hr
  simp only [roundedRecords, List.mem_singleton] at hr
  subst hr
  rfl

theorem roundedEnv_parse : roundedEnv.jsonParse roundedData = .ok (.arr roundedRecords) := by
  simp [roundedEnv]

theorem filter_swap (p q : JSValue → Bool) (records : List JSValue) :
    (records.filter p).filter q = (records.filter q).filter p := by
  rw [List.filter_filter, List.filter_filter]
  congr 1
  funext r
  exact Bool.and_comm _ _

/-! ## The claims -/

/-- C1: with `furnished` equal to `"true"` and no `max_price`, `processHouseData`
returns, in input order, the projections of exactly the input records whose
`furnishingstatus` is the string `"furnished"`; the test is case-sensitive and
fails on every other value and on a missing field. -/
theorem furnished_true_keeps_exactly_furnished (env : Env) (data : String)
    (records : List JSValue) (queryParams : JSValue)
    (hparse : env.jsonParse data = .ok (.arr records))
    (hrecords : AllRecords records)
    (hq : queryParams.isNullish = false)
    (hfurnished : queryParams.field "furnished" = .str "true")
    (hmax : queryParams.field "max_price" = .undefined) :
    processHouseData env (.ok data) queryParams
        = .ok (.obj [("houses", .arr ((records.filter furnishedOk).map projection))])
      ∧ (∀ r : JSValue, furnishedOk r = true ↔ r.field "furnishingstatus" = .str "furnished")
      ∧ (∀ r : JSValue, (∀ s, r.field "furnishingstatus" = .str s → s ≠ "furnished") →
          furnishedOk r = false) := by
  refine ⟨?_, fun r => strictEqString_iff _ _, ?_⟩
  · have hoff : maxPriceActive queryParams = false := by
      simp [maxPriceActive, hmax, truthy]
    rw [processHouseData_ok_inactive env data queryParams records hparse hq hrecords hoff]
    simp [selected, furnishedActive, hoff, hfurnished, strictEqString]
  · intro r hr
    unfold furnishedOk
    cases hfs : r.field "furnishingstatus" <;> simp [strictEqString]
    rename_i s
    exact hr s hfs

/-- C1 on the example of the specification: `?furnished=true` returns the single
record with price 13300000; the values `semi-furnished`, `unfurnished` and
`Furnished` and a missing field do not pass the test. -/
theorem furnished_true_example :
    processHouseData exampleEnv (.ok exampleData) (fromEntries [("furnished", "true")])
        = .ok (.obj [("houses", .arr [.obj [("house", .obj [("price", .str "13300000"),
            ("area", .str "7420"), ("furnishingstatus", .str "furnished")])]])])
      ∧ furnishedOk (.obj [("furnishingstatus", .str "semi-furnished")]) = false
      ∧ furnishedOk (.obj [("furnishingstatus", .str "unfurnished")]) = false
      ∧ furnishedOk (.obj [("furnishingstatus", .str "Furnished")]) = false
      ∧ furnishedOk (.obj [("price", .str "1")]) = false :=
  ⟨(furnished_true_keeps_exactly_furnished exampleEnv exampleData exampleRecords
      (fromEntries [("furnished", "true")]) exampleEnv_parse exampleRecords_allRecords
      rfl rfl rfl).1.trans rfl,
    by decide, by decide, by decide, by decide⟩

/-- C2, as the code behaves: with `max_price=9007199254740992` the record whose
price is `"9007199254740993"` is returned, although 9007199254740993 is greater
than 9007199254740992: `parseInt` rounds the price to the nearest double.  With
`max_price=5` the record whose price is the number `1e21` is returned: `parseInt`
reads the `1` of its string form `1e+21`.  And with `max_price=5` on a list where
one price is the object `{"toString": 1}` the call throws instead of leaving that
record out. -/
theorem max_price_compares_doubles :
    processHouseData roundedEnv (.ok roundedData)
        (fromEntries [("max_price", toString (9007199254740992 : Int))])
      = .ok (.obj [("houses", .arr [.obj [("house", .obj [
          ("price", .str "9007199254740993"), ("area", .str "1000"),
          ("furnishingstatus", .str "furnished")])]])])
      ∧ (∀ r ∈ roundedRecords, priceInteger r = some 9007199254740993)
      ∧ ¬ ((9007199254740993 : Int) ≤ 9007199254740992)
      ∧ processHouseData edgeEnv (.ok exponentData)
          (fromEntries [("max_price", toString (5 : Int))])
        = .ok (.obj [("houses", .arr [.obj [("house", .obj [("price", .num "1e+21"),
            ("area", .undefined), ("furnishingstatus", .undefined)])]])])
      ∧ processHouseData edgeEnv (.ok unreadableData)
          (fromEntries [("max_price", toString (5 : Int))])
        = .error (.wrapped .notPrimitive) := by
  refine ⟨?_, ?_, by decide, rfl, rfl⟩
  · rw [processHouseData_ok_str roundedEnv roundedData
      (fromEntries [("max_price", toString (9007199254740992 : Int))]) roundedRecords
      "9007199254740992" roundedEnv_parse rfl roundedRecords_allRecords rfl
      (fun r hr => by
        simp only [roundedRecords] at hr
        have hr2 : r ∈ [JSValue.obj [("price", .str "9007199254740993"),
            ("area", .str "1000"), ("furnishingstatus", .str "furnished")]] := hr
        rw [List.mem_singleton.mp hr2]
        exact ⟨_, rfl⟩)]
    have hkeep : priceOk (parseIntString "9007199254740992")
        (.obj [("price", .str "9007199254740993"), ("area", .str "1000"),
          ("furnishingstatus", .str "furnished")]) = true := by decide!
    have hsel : selected (fromEntries [("max_price", toString (9007199254740992 : Int))])
        roundedRecords = roundedRecords := by
      show List.filter (priceOk (parseIntString "9007199254740992")) roundedRecords
        = roundedRecords
      simp only [roundedRecords, List.filter_cons, hkeep, if_true, List.filter_nil]
    rw [hsel]
    rfl
  · intro r hr
    simp only [roundedRecords, List.mem_singleton] at hr
    subst hr
    decide

/-- C2, amended: for an integer threshold `T` with `|T| < 2 ^ 53`, a request with
`max_price=T` and no `furnished` parameter returns, when every record's price has
a string form, the projections of exactly the input records from whose `price`
`parseInt` reads an integer at most `T`, in input order.  From a price that is the
decimal rendering of an integer, as a string or as a number, `parseInt` reads that
integer; a record whose price is missing is excluded.  When some record's price
has no string form, the call throws. -/
theorem max_price_keeps_prices_at_most (env : Env) (data : String)
    (records : List JSValue) (queryParams : JSValue) (T : Int)
    (hparse : env.jsonParse data = .ok (.arr records))
    (hrecords : AllRecords records)
    (hq : queryParams.isNullish = false)
    (hfurnished : queryParams.field "furnished" = .undefined)
    (hmax : queryParams.field "max_price" = .str (toString T))
    (hlo : -(2 ^ 53 : Int) < T) (hhi : T < 2 ^ 53) :
    (PricesReadable records →
        processHouseData env (.ok data) queryParams
          = .ok (.obj [("houses", .arr ((records.filter (priceAtMost T)).map projection))]))
      ∧ ((∃ r ∈ records, ∃ e, (r.field "price").toJSString = .error e) →
          ∃ e, processHouseData env (.ok data) queryParams = .error e)
      ∧ (∀ r : JSValue, priceAtMost T r = true ↔ ∃ p, priceInteger r = some p ∧ p ≤ T)
      ∧ (∀ (r : JSValue) (p : Int),
          r.field "price" = .str (toString p) ∨ r.field "price" = .num (toString p) →
          priceInteger r = some p)
      ∧ (∀ r : JSValue, r.field "price" = .undefined → priceAtMost T r = false) := by
  have hoff : furnishedActive queryParams = false := by
    simp [furnishedActive, hfurnished, strictEqString]
  have hon : maxPriceActive queryParams = true := by
    simp [maxPriceActive, hmax, truthy, toString_int_ne_empty T]
  refine ⟨?_, ?_, priceAtMost_iff T, priceInteger_decimal, ?_⟩
  · intro hprices
    rw [processHouseData_ok_str env data queryParams records (toString T) hparse hq hrecords
      hmax (by simp only [hoff, Bool.false_eq_true, if_false]; exact hprices)]
    have hpred : priceOk (thresholdOf queryParams) = priceAtMost T := by
      funext r
      rw [thresholdOf_str hmax]
      exact priceOk_safe T hlo hhi r
    simp only [selected, hoff, hon, hpred, if_true, Bool.false_eq_true, if_false]
  · intro hbad
    exact processHouseData_price_throws env data queryParams records hparse hq hrecords hon
      (by simp only [hoff, Bool.false_eq_true, if_false]; exact hbad)
  · intro r hr
    have hnone : priceInteger r = none := by
      unfold priceInteger
      rw [hr]
      decide
    simp only [priceAtMost, hnone]

/-- C2, amended, on the example: `?max_price=12250000` returns the single record
with price 12250000. -/
theorem max_price_example :
    processHouseData exampleEnv (.ok exampleData) (fromEntries [("max_price", "12250000")])
      = .ok (.obj [("houses", .arr [.obj [("house", .obj [("price", .str "12250000"),
          ("area", .str "8960"), ("furnishingstatus", .str "unfurnished")])]])]) :=
  ((max_price_keeps_prices_at_most exampleEnv exampleData exampleRecords
    (fromEntries [("max_price", "12250000")]) 12250000 exampleEnv_parse
    exampleRecords_allRecords rfl rfl rfl (by decide) (by decide)).1
    exampleRecords_pricesReadable).trans rfl

/-- C3, as the code behaves: `?max_price=abc` on the example returns no record,
while the same request without `max_price` returns both; and on a record whose
price is the array `[3, {"toString": "x"}]` the request with `max_price=abc`
throws, while the same request without `max_price` returns the record. -/
theorem max_price_abc_differs_from_omitted :
    processHouseData exampleEnv (.ok exampleData) (fromEntries [("max_price", "abc")])
        = .ok (.obj [("houses", .arr [])])
      ∧ processHouseData exampleEnv (.ok exampleData) (fromEntries [])
        = .ok (.obj [("houses", .arr (exampleRecords.map projection))])
      ∧ processHouseData exampleEnv (.ok exampleData) (fromEntries [("max_price", "abc")])
        ≠ processHouseData exampleEnv (.ok exampleData) (fromEntries [])
      ∧ processHouseData edgeEnv (.ok nestedData) (fromEntries [("max_price", "abc")])
        = .error (.wrapped .notPrimitive)
      ∧ processHouseData edgeEnv (.ok nestedData) (fromEntries [])
        = .ok (.obj [("houses", .arr (nestedRecords.map projection))]) := by
  have h1 : processHouseData exampleEnv (.ok exampleData) (fromEntries [("max_price", "abc")])
      = .ok (.obj [("houses", .arr [])]) := rfl
  have h2 : processHouseData exampleEnv (.ok exampleData) (fromEntries [])
      = .ok (.obj [("houses", .arr (exampleRecords.map projection))]) := rfl
  refine ⟨h1, h2, ?_, rfl, rfl⟩
  rw [h1, h2]
  simp [exampleRecords]

/-- C3, amended: a `max_price` value that is a non-empty string from which
`parseInt` reads no integer activates the price filter with the threshold `NaN`,
which no record passes.  When every price the filter meets has a string form, no
fault is raised and the result is the empty list, whatever the `furnished`
parameter; when one has none, the call throws.  Only the empty string leaves the
filter off, giving the result of the request without `max_price`. -/
theorem non_numeric_max_price_selects_nothing (env : Env) (data : String)
    (records : List JSValue) (queryParams : JSValue) (text : String)
    (hparse : env.jsonParse data = .ok (.arr records))
    (hrecords : AllRecords records)
    (hq : queryParams.isNullish = false)
    (hmax : queryParams.field "max_price" = .str text)
    (hnan : parseIntString text = .nan) :
    (text ≠ "" →
        PricesReadable (if furnishedActive queryParams then records.filter furnishedOk
          else records) →
        processHouseData env (.ok data) queryParams = .ok (.obj [("houses", .arr [])]))
      ∧ (text ≠ "" →
        (∃ r ∈ (if furnishedActive queryParams then records.filter furnishedOk
          else records), ∃ e, (r.field "price").toJSString = .error e) →
        ∃ e, processHouseData env (.ok data) queryParams = .error e)
      ∧ (text = "" →
        processHouseData env (.ok data) queryParams
          = .ok (.obj [("houses", .arr ((if furnishedActive queryParams
              then records.filter furnishedOk else records).map projection))])) := by
  refine ⟨?_, ?_, ?_⟩
  · intro hne hprices
    have hactive : maxPriceActive queryParams = true := by
      simp [maxPriceActive, hmax, truthy, hne]
    rw [processHouseData_ok_str env data queryParams records text hparse hq hrecords hmax
      hprices]
    simp only [selected, hactive, if_true, thresholdOf_str hmax, hnan, filter_priceOk_nan,
      List.map_nil]
  · intro hne hbad
    have hactive : maxPriceActive queryParams = true := by
      simp [maxPriceActive, hmax, truthy, hne]
    exact processHouseData_price_throws env data queryParams records hparse hq hrecords
      hactive hbad
  · intro he
    have hinactive : maxPriceActive queryParams = false := by
      simp [maxPriceActive, hmax, truthy, he]
    rw [processHouseData_ok_inactive env data queryParams records hparse hq hrecords
      hinactive]
    simp only [selected, hinactive]
    rfl

/-- C3, amended, on the example: `?max_price=abc` returns no record. -/
theorem non_numeric_max_price_example :
    processHouseData exampleEnv (.ok exampleData) (fromEntries [("max_price", "abc")])
      = .ok (.obj [("houses", .arr [])]) :=
  (non_numeric_max_price_selects_nothing exampleEnv exampleData exampleRecords
    (fromEntries [("max_price", "abc")]) "abc" exampleEnv_parse exampleRecords_allRecords
    rfl rfl (by decide)).1 (by decide) exampleRecords_pricesReadable

/-- C4, as the code behaves: with `furnished=true&max_price=9007199254740992` the
furnished record whose price is `"9007199254740993"` is returned, although its
integer price is greater than the threshold.  And on an unfurnished record whose
price is the object `{"toString": 1}`, the request with both parameters returns
the empty list while the request with `max_price=5` alone throws, and the two
filters applied in the other order throw as well. -/
theorem both_parameters_compare_doubles :
    processHouseData roundedEnv (.ok roundedData)
        (fromEntries [("furnished", "true"), ("max_price", toString (9007199254740992 : Int))])
      = .ok (.obj [("houses", .arr [.obj [("house", .obj [
          ("price", .str "9007199254740993"), ("area", .str "1000"),
          ("furnishingstatus", .str "furnished")])]])])
      ∧ (∀ r ∈ roundedRecords, furnishedOk r = true ∧ priceAtMost 9007199254740992 r = false)
      ∧ processHouseData edgeEnv (.ok unfurnishedData)
          (fromEntries [("furnished", "true"), ("max_price", toString (5 : Int))])
        = .ok (.obj [("houses", .arr [])])
      ∧ processHouseData edgeEnv (.ok unfurnishedData)
          (fromEntries [("max_price", toString (5 : Int))])
        = .error (.wrapped .notPrimitive)
      ∧ furnishedThenPrice (parseIntString (toString (5 : Int))) (.arr unfurnishedRecords)
        = .ok (.arr [])
      ∧ priceThenFurnished (parseIntString (toString (5 : Int))) (.arr unfurnishedRecords)
        = .error .notPrimitive := by
  refine ⟨?_, ?_, rfl, rfl, rfl, rfl⟩
  · have hreadable : PricesReadable roundedRecords := by
      intro r hr
      simp only [roundedRecords, List.mem_singleton] at hr
      subst hr
      exact ⟨_, rfl⟩
    rw [processHouseData_ok_str roundedEnv roundedData
      (fromEntries [("furnished", "true"), ("max_price", toString (9007199254740992 : Int))])
      roundedRecords "9007199254740992" roundedEnv_parse rfl roundedRecords_allRecords rfl
      (pricesReadable_filter furnishedOk hreadable)]
    have hkeep : priceOk (parseIntString "9007199254740992")
        (.obj [("price", .str "9007199254740993"), ("area", .str "1000"),
          ("furnishingstatus", .str "furnished")]) = true := by decide!
    have hfurnished : furnishedOk
        (.obj [("price", .str "9007199254740993"), ("area", .str "1000"),
          ("furnishingstatus", .str "furnished")]) = true := by decide
    have hsel : selected
        (fromEntries [("furnished", "true"), ("max_price", toString (9007199254740992 : Int))])
        roundedRecords = roundedRecords := by
      show List.filter (priceOk (parseIntString "9007199254740992"))
        (List.filter furnishedOk roundedRecords) = roundedRecords
      simp only [roundedRecords, List.filter_cons, hkeep, hfurnished, if_true, List.filter_nil]
    rw [hsel]
    rfl
  · intro r hr
    simp only [roundedRecords, List.mem_singleton] at hr
    subst hr
    exact ⟨by decide, by decide⟩

/-- C4, amended: for every integer `T`, let `furnishedOnly` be what `furnished=true`
alone selects, `maxOnly` what `max_price=T` alone selects and `both` the records in
the two.  Then `both` is a sublist of the input, of `furnishedOnly` and of
`maxOnly`, and when `|T| < 2 ^ 53` it is the list of input records whose
`furnishingstatus` is `"furnished"` and from whose `price` `parseInt` reads an
integer at most `T`.  The request with `furnished=true` alone returns
`furnishedOnly`.  The request with both parameters, and the two filters in the
order of the code, return `both` when every furnished record's price has a string
form, and throw otherwise.  The request with `max_price=T` alone returns `maxOnly`
and the two filters in the other order return `both` when every record's price
has a string form, and both throw otherwise. -/
theorem both_parameters_are_conjunctive (env : Env) (data : String)
    (records : List JSValue) (qBoth qFurnished qMax : JSValue) (T : Int)
    (hparse : env.jsonParse data = .ok (.arr records))
    (hrecords : AllRecords records)
    (hqB : qBoth.isNullish = false)
    (hBf : qBoth.field "furnished" = .str "true")
    (hBm : qBoth.field "max_price" = .str (toString T))
    (hqF : qFurnished.isNullish = false)
    (hFf : qFurnished.field "furnished" = .str "true")
    (hFm : qFurnished.field "max_price" = .undefined)
    (hqM : qMax.isNullish = false)
    (hMf : qMax.field "furnished" = .undefined)
    (hMm : qMax.field "max_price" = .str (toString T)) :
    ∃ both furnishedOnly maxOnly : List JSValue,
      both.Sublist records
        ∧ both.Sublist furnishedOnly ∧ both.Sublist maxOnly
        ∧ (both.map projection).Sublist (furnishedOnly.map projection)
        ∧ (both.map projection).Sublist (maxOnly.map projection)
        ∧ (∀ r, r ∈ both ↔ r ∈ furnishedOnly ∧ r ∈ maxOnly)
        ∧ (-(2 ^ 53 : Int) < T → T < 2 ^ 53 →
            both = records.filter (fun r => furnishedOk r && priceAtMost T r))
        ∧ processHouseData env (.ok data) qFurnished
          = .ok (.obj [("houses", .arr (furnishedOnly.map projection))])
        ∧ (PricesReadable furnishedOnly →
            processHouseData env (.ok data) qBoth
                = .ok (.obj [("houses", .arr (both.map projection))])
              ∧ furnishedThenPrice (parseIntString (toString T)) (.arr records)
                = .ok (.arr both))
        ∧ ((∃ r ∈ furnishedOnly, ∃ e, (r.field "price").toJSString = .error e) →
            (∃ e, processHouseData env (.ok data) qBoth = .error e)
              ∧ ∃ e, furnishedThenPrice (parseIntString (toString T)) (.arr records)
                = .error e)
        ∧ (PricesReadable records →
            processHouseData env (.ok data) qMax
                = .ok (.obj [("houses", .arr (maxOnly.map projection))])
              ∧ priceThenFurnished (parseIntString (toString T)) (.arr records)
                = .ok (.arr both))
        ∧ ((∃ r ∈ records, ∃ e, (r.field "price").toJSString = .error e) →
            (∃ e, processHouseData env (.ok data) qMax = .error e)
              ∧ ∃ e, priceThenFurnished (parseIntString (toString T)) (.arr records)
                = .error e) := by
  have hon : ∀ q : JSValue, q.field "max_price" = .str (toString T) →
      maxPriceActive q = true := by
    intro q h
    simp [maxPriceActive, h, truthy, toString_int_ne_empty T]
  have hfB : furnishedActive qBoth = true := by
    simp [furnishedActive, hBf, strictEqString]
  have hfM : furnishedActive qMax = false := by
    simp [furnishedActive, hMf, strictEqString]
  have hselB : selected qBoth records
      = (records.filter furnishedOk).filter (priceOk (parseIntString (toString T))) := by
    simp only [selected, hfB, hon qBoth hBm, if_true, thresholdOf_str hBm]
  have hselF : selected qFurnished records = records.filter furnishedOk := by
    simp [selected, furnishedActive, hFf, strictEqString, maxPriceActive, hFm, truthy]
  have hselM : selected qMax records
      = records.filter (priceOk (parseIntString (toString T))) := by
    simp only [selected, hfM, hon qMax hMm, if_true, thresholdOf_str hMm,
      Bool.false_eq_true, if_false]
  have hsubF : ((records.filter furnishedOk).filter
      (priceOk (parseIntString (toString T)))).Sublist (records.filter furnishedOk) :=
    List.filter_sublist _
  have hsubM : ((records.filter furnishedOk).filter
      (priceOk (parseIntString (toString T)))).Sublist
      (records.filter (priceOk (parseIntString (toString T)))) := by
    rw [filter_swap]
    exact List.filter_sublist _
  have hFall : AllRecords (records.filter furnishedOk) := allRecords_filter _ hrecords
  refine ⟨(records.filter furnishedOk).filter (priceOk (parseIntString (toString T))),
    records.filter furnishedOk, records.filter (priceOk (parseIntString (toString T))),
    hsubF.trans (List.filter_sublist _), hsubF, hsubM, hsubF.map _, hsubM.map _,
    ?_, ?_, ?_, ?_, ?_, ?_, ?_⟩
  · intro r
    simp only [List.mem_filter]
    tauto
  · intro hlo hhi
    have hpred : priceOk (parseIntString (toString T)) = priceAtMost T := by
      funext r
      exact priceOk_safe T hlo hhi r
    rw [hpred, List.filter_filter]
    congr 1
    funext r
    exact Bool.and_comm _ _
  · have hoff : maxPriceActive qFurnished = false := by
      simp [maxPriceActive, hFm, truthy]
    rw [processHouseData_ok_inactive env data qFurnished records hparse hqF hrecords hoff,
      hselF]
  · intro hprices
    constructor
    · rw [processHouseData_ok_str env data qBoth records (toString T) hparse hqB hrecords
        hBm (by simp only [hfB, if_true]; exact hprices), hselB]
    · simp only [furnishedThenPrice, callFilter_isFurnished hrecords,
        callFilter_withinMaxPrice _ hFall hprices]
  · intro hbad
    constructor
    · exact processHouseData_price_throws env data qBoth records hparse hqB hrecords
        (hon qBoth hBm) (by simp only [hfB, if_true]; exact hbad)
    · obtain ⟨r, hr, e, he⟩ := hbad
      obtain ⟨e2, he2⟩ := filterArray_throws
        (withinMaxPrice (parseIntString (toString T))) (records.filter furnishedOk)
        ⟨r, hr, e, withinMaxPrice_throws _ (hFall r hr) he⟩
      refine ⟨e2, ?_⟩
      unfold furnishedThenPrice
      rw [callFilter_isFurnished hrecords]
      simp only [callFilter, he2]
  · intro hprices
    constructor
    · rw [processHouseData_ok_str env data qMax records (toString T) hparse hqM hrecords
        hMm (by simp only [hfM, Bool.false_eq_true, if_false]; exact hprices), hselM]
    · simp only [priceThenFurnished, callFilter_withinMaxPrice _ hrecords hprices,
        callFilter_isFurnished (allRecords_filter _ hrecords)]
      rw [filter_swap]
  · intro hbad
    constructor
    · exact processHouseData_price_throws env data qMax records hparse hqM hrecords
        (hon qMax hMm) (by simp only [hfM, Bool.false_eq_true, if_false]; exact hbad)
    · obtain ⟨r, hr, e, he⟩ := hbad
      obtain ⟨e2, he2⟩ := filterArray_throws
        (withinMaxPrice (parseIntString (toString T))) records
        ⟨r, hr, e, withinMaxPrice_throws _ (hrecords r hr) he⟩
      exact ⟨e2, by simp only [priceThenFurnished, callFilter, he2]⟩

/-- C4, amended, on the example: `?furnished=true&max_price=13300000` returns the
single record with price 13300000, a sublist of what `?furnished=true` returns,
and `?furnished=true&max_price=12250000` returns none. -/
theorem both_parameters_example :
    (∃ both furnishedOnly : List JSValue,
      both.Sublist exampleRecords ∧ both.Sublist furnishedOnly
        ∧ processHouseData exampleEnv (.ok exampleData) (fromEntries [("furnished", "true")])
          = .ok (.obj [("houses", .arr (furnishedOnly.map projection))]))
      ∧ PricesReadable exampleRecords
      ∧ processHouseData exampleEnv (.ok exampleData)
          (fromEntries [("furnished", "true"), ("max_price", "13300000")])
        = .ok (.obj [("houses", .arr [.obj [("house", .obj [("price", .str "13300000"),
            ("area", .str "7420"), ("furnishingstatus", .str "furnished")])]])])
      ∧ processHouseData exampleEnv (.ok exampleData)
          (fromEntries [("furnished", "true"), ("max_price", "12250000")])
        = .ok (.obj [("houses", .arr [])]) := by
  refine ⟨?_, exampleRecords_pricesReadable, rfl, rfl⟩
  obtain ⟨both, furnishedOnly, _, hsub, hsubF, _, _, _, _, _, hF, _⟩ :=
    both_parameters_are_conjunctive exampleEnv exampleData exampleRecords
      (fromEntries [("furnished", "true"), ("max_price", "13300000")])
      (fromEntries [("furnished", "true")])
      (fromEntries [("max_price", "13300000")]) 13300000 exampleEnv_parse
      exampleRecords_allRecords rfl rfl rfl rfl rfl rfl rfl rfl rfl
  exact ⟨both, furnishedOnly, hsub, hsubF, hF⟩

/-- C5: with no `max_price` and a `furnished` parameter that is absent or is any
string other than `"true"`, no record is filtered out, whatever other parameters
the query carries: the result holds the projection of every input record, in
input order. -/
theorem inactive_parameters_keep_every_record (env : Env) (data : String)
    (records : List JSValue) (queryParams : JSValue)
    (hparse : env.jsonParse data = .ok (.arr records))
    (hrecords : AllRecords records)
    (hq : queryParams.isNullish = false)
    (hfurnished : queryParams.field "furnished" = .undefined ∨
      ∃ s, s ≠ "true" ∧ queryParams.field "furnished" = .str s)
    (hmax : queryParams.field "max_price" = .undefined) :
    processHouseData env (.ok data) queryParams
        = .ok (.obj [("houses", .arr (records.map projection))])
      ∧ (records.map projection).length = records.length := by
  refine ⟨?_, List.length_map _ _⟩
  have hmaxoff : maxPriceActive queryParams = false := by
    simp [maxPriceActive, hmax, truthy]
  rw [processHouseData_ok_inactive env data queryParams records hparse hq hrecords hmaxoff]
  have hoff : furnishedActive queryParams = false := by
    unfold furnishedActive
    rcases hfurnished with h | ⟨s, hs, h⟩
    · simp [h, strictEqString]
    · simp [h, strictEqString, hs]
  simp [selected, hoff, hmaxoff]

/-- C5 on the example: `?furnished=TRUE&page=2` returns both records. -/
theorem inactive_parameters_example :
    processHouseData exampleEnv (.ok exampleData)
        (fromEntries [("furnished", "TRUE"), ("page", "2")])
      = .ok (.obj [("houses", .arr [
          .obj [("house", .obj [("price", .str "13300000"), ("area", .str "7420"),
            ("furnishingstatus", .str "furnished")])],
          .obj [("house", .obj [("price", .str "12250000"), ("area", .str "8960"),
            ("furnishingstatus", .str "unfurnished")])]])]) :=
  (inactive_parameters_keep_every_record exampleEnv exampleData exampleRecords
    (fromEntries [("furnished", "TRUE"), ("page", "2")]) exampleEnv_parse
    exampleRecords_allRecords rfl (Or.inr ⟨"TRUE", by decide, rfl⟩) rfl).1.trans rfl

/-- C6: whenever `processHouseData` returns, its result holds one object per
surviving record, the survivors being a sublist of the input, and that object is
`{ house: { price, area, furnishingstatus } }` with exactly these three fields,
each the very value the source record has under that name (a string stays a
string, a number a number).  The projection of a record never fails, so whatever
survives the filters is projected, and a field the source record lacks is
`undefined` in the output.  The call does return when the price filter is not
active, or when its threshold and every price it meets have a string form. -/
theorem projection_carries_three_fields (env : Env) (data : String)
    (records : List JSValue) (queryParams : JSValue)
    (hparse : env.jsonParse data = .ok (.arr records))
    (hrecords : AllRecords records)
    (hq : queryParams.isNullish = false) :
    (∀ result, processHouseData env (.ok data) queryParams = .ok result →
        ∃ survivors : List JSValue, survivors.Sublist records ∧
          result = .obj [("houses", .arr (survivors.map projection))])
      ∧ (∀ survivors : List JSValue, survivors.Sublist records →
          callMap (.arr survivors) projectHouse = .ok (.arr (survivors.map projection)))
      ∧ (∀ r ∈ records,
          projectHouse r = .ok (.obj [("house", .obj [("price", r.field "price"),
            ("area", r.field "area"), ("furnishingstatus", r.field "furnishingstatus")])])
          ∧ projection r = .obj [("house", .obj [("price", r.field "price"),
            ("area", r.field "area"), ("furnishingstatus", r.field "furnishingstatus")])])
      ∧ ((maxPriceActive queryParams = true →
            (∃ m, parseInt (queryParams.field "max_price") = .ok m) ∧
              PricesReadable (if furnishedActive queryParams then records.filter furnishedOk
                else records)) →
          processHouseData env (.ok data) queryParams
              = .ok (.obj [("houses", .arr ((selected queryParams records).map projection))])
            ∧ (selected queryParams records).Sublist records)
      ∧ (∀ (fields : List (String × JSValue)) (key : String),
          (∀ v, (key, v) ∉ fields) → (JSValue.obj fields).field key = .undefined) := by
  refine ⟨?_, ?_, ?_, ?_, ?_⟩
  · intro result hresult
    exact processHouseData_shape env data queryParams records result hparse hrecords hresult
  · intro survivors hsub
    exact callMap_projectHouse (fun r hr => hrecords r (hsub.subset hr))
  · intro r hr
    exact ⟨projectHouse_ok (hrecords r hr), rfl⟩
  · intro hactive
    refine ⟨processHouseData_ok env data queryParams records hparse hq hrecords hactive, ?_⟩
    unfold selected
    by_cases hf : furnishedActive queryParams = true <;>
      by_cases hm : maxPriceActive queryParams = true <;>
      simp only [hf, hm, if_true, if_false]
    · exact (List.filter_sublist _).trans (List.filter_sublist _)
    · exact List.filter_sublist _
    · exact List.filter_sublist _
    · exact List.Sublist.refl _
  · intro fields key hkey
    show lookupField fields key = .undefined
    induction fields with
    | nil => rfl
    | cons kv rest ih =>
        obtain ⟨k, v⟩ := kv
        have hne : k ≠ key := fun h => hkey v (by simp [h])
        simp only [lookupField, if_neg hne]
        exact ih (fun w hw => hkey w (List.mem_cons_of_mem _ hw))

/-- C6 on a record with a numeric price, an extra field and no `area` and no
`furnishingstatus`. -/
theorem projection_example :
    processHouseData sparseEnv (.ok "[\x7b\"id\":7,\"price\":5\x7d]") (fromEntries [])
      = .ok (.obj [("houses", .arr [.obj [("house", .obj [("price", .num "5"),
          ("area", .undefined), ("furnishingstatus", .undefined)])]])]) :=
  ((projection_carries_three_fields sparseEnv "[\x7b\"id\":7,\"price\":5\x7d]"
    sparseRecords (fromEntries []) rfl
    (by intro r hr; simp only [sparseRecords, List.mem_singleton] at hr; subst hr; rfl)
    rfl).2.2.2.1 (fun h => Bool.noConfusion h)).1.trans rfl

/-- C7: a request whose method is not `GET` gets status 405, `Content-Type:
text/plain` and the body `Method Not Allowed`, whatever its URL, the file and the
libraries do; besides logging the request the handler makes no call: it does not
parse the URL, run `processHouseData` (which reads the file) or build XML, and no
fault leaves it. -/
theorem non_get_is_method_not_allowed (env : Env) (file : Except Fault String)
    (req : Request) (hmethod : req.method ≠ "GET") :
    handleRequest env file req
      = .ok ⟨⟨405, [("Content-Type", "text/plain")], "Method Not Allowed"⟩,
          [.consoleLog ("Отримано запит: " ++ req.method ++ " " ++ req.url)]⟩ := by
  simp [handleRequest, hmethod, methodNotAllowed]

/-- C7 on a `POST` with a malformed query string and an unreadable file. -/
theorem non_get_example :
    handleRequest exampleEnv (.error (.external "ENOENT")) ⟨"POST", "/?max_price=%%&&="⟩
      = .ok ⟨⟨405, [("Content-Type", "text/plain")], "Method Not Allowed"⟩,
          [.consoleLog "Отримано запит: POST /?max_price=%%&&="]⟩ :=
  (non_get_is_method_not_allowed exampleEnv (.error (.external "ENOENT"))
    ⟨"POST", "/?max_price=%%&&="⟩ (by decide)).trans rfl

/-- C8: for a `GET` request no fault leaves the handler, and its response is
either status 200 with `Content-Type: application/xml`,
`Access-Control-Allow-Origin: *` and the text `xmlBuilder.build` returned as body,
when URL parsing, `processHouseData` and the XML build all succeed; or, when one
of them throws, status 500 with `Content-Type: text/plain` and the fixed body
`Internal Server Error`, the same whatever the fault.  `processHouseData` throws
when the file cannot be read, when its text does not parse, when the parsed value
is not an array, and when a record is `null`. -/
theorem get_responds_200_or_500 (env : Env) (file : Except Fault String) (req : Request)
    (hget : req.method = "GET") :
    (∃ h, handleRequest env file req = .ok h ∧
      ((∃ entries processedData xmlData,
          env.parseUrl req.url = .ok entries ∧
          processHouseData env file (fromEntries entries) = .ok processedData ∧
          env.build processedData = .ok xmlData ∧
          h.response = ⟨200, [("Content-Type", "application/xml"),
            ("Access-Control-Allow-Origin", "*")], xmlData⟩)
        ∨ ((∃ e, env.parseUrl req.url = .error e ∨
              ∃ entries, env.parseUrl req.url = .ok entries ∧
                (processHouseData env file (fromEntries entries) = .error e ∨
                  ∃ processedData,
                    processHouseData env file (fromEntries entries) = .ok processedData ∧
                    env.build processedData = .error e)) ∧
            h.response = ⟨500, [("Content-Type", "text/plain")], "Internal Server Error"⟩)))
      ∧ (∀ e queryParams, file = .error e →
          processHouseData env file queryParams = .error (.wrapped e))
      ∧ (∀ data e queryParams, file = .ok data → env.jsonParse data = .error e →
          processHouseData env file queryParams = .error (.wrapped e))
      ∧ (∀ data houses queryParams, file = .ok data → env.jsonParse data = .ok houses →
          (∀ items, houses ≠ .arr items) →
          ∃ e, processHouseData env file queryParams = .error e)
      ∧ (∀ data items queryParams, file = .ok data →
          env.jsonParse data = .ok (.arr items) → JSValue.null ∈ items →
          ∃ e, processHouseData env file queryParams = .error e) := by
  refine ⟨?_, ?_, ?_, ?_, ?_⟩
  · cases hurl : env.parseUrl req.url with
    | error e =>
        have hg : handleGet env file req = (.error e, [.parseUrl req.url]) := by
          simp only [handleGet, hurl]
        exact ⟨_, handleRequest_get_error env file req hget hg,
          Or.inr ⟨⟨e, Or.inl rfl⟩, rfl⟩⟩
    | ok entries =>
        cases hp : processHouseData env file (fromEntries entries) with
        | error e =>
            have hg : handleGet env file req = (.error e,
                [.parseUrl req.url, .processHouseData (fromEntries entries)]) := by
              simp only [handleGet, hurl, hp]
            exact ⟨_, handleRequest_get_error env file req hget hg,
              Or.inr ⟨⟨e, Or.inr ⟨entries, rfl, Or.inl hp⟩⟩, rfl⟩⟩
        | ok processedData =>
            cases hb : env.build processedData with
            | error e =>
                have hg : handleGet env file req = (.error e,
                    [.parseUrl req.url, .processHouseData (fromEntries entries),
                      .build processedData]) := by
                  simp only [handleGet, hurl, hp, hb]
                exact ⟨_, handleRequest_get_error env file req hget hg,
                  Or.inr ⟨⟨e, Or.inr ⟨entries, rfl, Or.inr ⟨processedData, hp, hb⟩⟩⟩, rfl⟩⟩
            | ok xmlData =>
                have hg : handleGet env file req = (.ok xmlData,
                    [.parseUrl req.url, .processHouseData (fromEntries entries),
                      .build processedData]) := by
                  simp only [handleGet, hurl, hp, hb]
                exact ⟨_, handleRequest_get_ok env file req hget hg,
                  Or.inl ⟨entries, processedData, xmlData, rfl, hp, hb, rfl⟩⟩
  · intro e queryParams hfile
    subst hfile
    rfl
  · intro data e queryParams hfile hparse
    subst hfile
    simp only [processHouseData, processHouseDataBody, hparse]
  · intro data houses queryParams hfile hparse hnot
    subst hfile
    exact processHouseData_stuck env data queryParams houses hparse
      (callFilter_not_array _ _ hnot) (fun _ => callFilter_not_array _ _ hnot)
      (callMap_not_array _ _ hnot)
  · intro data items queryParams hfile hparse hmem
    subst hfile
    exact processHouseData_stuck env data queryParams (.arr items) hparse
      (callFilter_null _ ⟨_, rfl⟩ items hmem)
      (fun _ => callFilter_null _ ⟨_, rfl⟩ items hmem)
      (by
        obtain ⟨e, he⟩ := mapArray_null projectHouse ⟨_, rfl⟩ items hmem
        exact ⟨e, by simp only [callMap, he]⟩)

/-- C8 on the example: `GET /?furnished=true` is answered with status 200; the
answer is the 500 response when the file holds `[null]`, holds an object instead
of an array, cannot be read, or when the URL does not parse. -/
theorem get_example :
    (∃ h, handleRequest exampleEnv (.ok exampleData) ⟨"GET", "/?furnished=true"⟩ = .ok h ∧
        (h.response.status = 200 ∨ h.response.status = 500))
      ∧ responseOf (some (handleRequest exampleEnv (.ok exampleData)
          ⟨"GET", "/?furnished=true"⟩))
        = some ⟨200, [("Content-Type", "application/xml"),
            ("Access-Control-Allow-Origin", "*")], "(xml)"⟩
      ∧ responseOf (some (handleRequest exampleEnv (.ok "[null]") ⟨"GET", "/"⟩))
        = some ⟨500, [("Content-Type", "text/plain")], "Internal Server Error"⟩
      ∧ responseOf (some (handleRequest exampleEnv (.ok "\x7b\x7d") ⟨"GET", "/"⟩))
        = some ⟨500, [("Content-Type", "text/plain")], "Internal Server Error"⟩
      ∧ responseOf (some (handleRequest exampleEnv (.error (.external "ENOENT"))
          ⟨"GET", "/"⟩))
        = some ⟨500, [("Content-Type", "text/plain")], "Internal Server Error"⟩
      ∧ responseOf (some (handleRequest exampleEnv (.ok exampleData) ⟨"GET", "//["⟩))
        = some ⟨500, [("Content-Type", "text/plain")], "Internal Server Error"⟩ := by
  refine ⟨?_, rfl, rfl, rfl, rfl, rfl⟩
  obtain ⟨h, hh, hcases⟩ :=
    (get_responds_200_or_500 exampleEnv (.ok exampleData) ⟨"GET", "/?furnished=true"⟩ rfl).1
  refine ⟨h, hh, ?_⟩
  rcases hcases with ⟨_, _, _, _, _, _, hr⟩ | ⟨_, hr⟩
  · exact Or.inl (by rw [hr])
  · exact Or.inr (by rw [hr])

/-- C9, the value the handler hands to `xmlBuilder.build`: for `GET /` on the
example it is `{ houses: [ { house: ... }, { house: ... } ] }`, an array directly
under the key `houses` with one single-key `house` object per record, and for
`?max_price=0` it is `{ houses: [] }`. -/
theorem builder_receives_array_under_houses :
    handleRequest exampleEnv (.ok exampleData) ⟨"GET", "/"⟩
        = .ok ⟨⟨200, [("Content-Type", "application/xml"),
            ("Access-Control-Allow-Origin", "*")], "(xml)"⟩,
          [.consoleLog "Отримано запит: GET /", .parseUrl "/",
            .processHouseData (.obj []),
            .build (.obj [("houses", .arr [
              .obj [("house", .obj [("price", .str "13300000"), ("area", .str "7420"),
                ("furnishingstatus", .str "furnished")])],
              .obj [("house", .obj [("price", .str "12250000"), ("area", .str "8960"),
                ("furnishingstatus", .str "unfurnished")])]])])]⟩
      ∧ processHouseData exampleEnv (.ok exampleData) (fromEntries [("max_price", "0")])
        = .ok (.obj [("houses", .arr [])]) :=
  ⟨rfl, rfl⟩

/-- C10, as the code behaves: a process started on the example file answers
`GET /` with status 200 while the file holds the example text and with status 500
once the file holds text that is not JSON; and once the file holds `[]` the value
handed to the XML builder is the empty list instead of the two records. -/
theorem response_follows_file_at_request_time :
    responseOf (serve exampleEnv (.ok exampleData) (.ok exampleData) ⟨"GET", "/"⟩)
        = some ⟨200, [("Content-Type", "application/xml"),
            ("Access-Control-Allow-Origin", "*")], "(xml)"⟩
      ∧ responseOf (serve exampleEnv (.ok exampleData) (.ok "oops") ⟨"GET", "/"⟩)
        = some ⟨500, [("Content-Type", "text/plain")], "Internal Server Error"⟩
      ∧ responseOf (serve exampleEnv (.ok exampleData) (.ok exampleData) ⟨"GET", "/"⟩)
        ≠ responseOf (serve exampleEnv (.ok exampleData) (.ok "oops") ⟨"GET", "/"⟩)
      ∧ processHouseData exampleEnv (.ok exampleData) (fromEntries [])
        = .ok (.obj [("houses", .arr (exampleRecords.map projection))])
      ∧ processHouseData exampleEnv (.ok "[]") (fromEntries [])
        = .ok (.obj [("houses", .arr [])]) := by
  have h1 : responseOf (serve exampleEnv (.ok exampleData) (.ok exampleData) ⟨"GET", "/"⟩)
      = some ⟨200, [("Content-Type", "application/xml"),
          ("Access-Control-Allow-Origin", "*")], "(xml)"⟩ := rfl
  have h2 : responseOf (serve exampleEnv (.ok exampleData) (.ok "oops") ⟨"GET", "/"⟩)
      = some ⟨500, [("Content-Type", "text/plain")], "Internal Server Error"⟩ := rfl
  refine ⟨h1, h2, ?_, rfl, rfl⟩
  rw [h1, h2]
  simp

/-- C10, amended: the start-up read only decides whether the process runs, and
keeps nothing; every `GET` request reads the file again.  So for two `GET`
requests with the same query, served by processes started on any two readable
files, the responses are identical when the read of the input file gives the
same outcome at the two request times: the response depends only on the file's
content at request time and on the query. -/
theorem response_depends_on_file_at_request_time (env : Env)
    (fileAtStartup1 fileAtStartup2 fileAtRequest : Except Fault String)
    (req1 req2 : Request)
    (hstart1 : startupCheck fileAtStartup1 = true)
    (hstart2 : startupCheck fileAtStartup2 = true)
    (hget1 : req1.method = "GET") (hget2 : req2.method = "GET")
    (hquery : env.parseUrl req1.url = env.parseUrl req2.url) :
    responseOf (serve env fileAtStartup1 fileAtRequest req1)
        = responseOf (serve env fileAtStartup2 fileAtRequest req2)
      ∧ ∃ response, responseOf (serve env fileAtStartup1 fileAtRequest req1)
          = some response := by
  obtain ⟨calls1, h1⟩ := handleRequest_get_response env fileAtRequest req1 hget1
  obtain ⟨calls2, h2⟩ := handleRequest_get_response env fileAtRequest req2 hget2
  have hsame : (handleGet env fileAtRequest req1).1 = (handleGet env fileAtRequest req2).1 := by
    rw [handleGet_outcome, handleGet_outcome, hquery]
  simp only [serve, hstart1, hstart2, if_true, h1, h2, responseOf, hsame]
  exact ⟨trivial, _, rfl⟩

/-- C10, amended, on the example: two processes started on different files answer
`GET /` alike while the file holds the example text. -/
theorem response_depends_on_file_example :
    responseOf (serve exampleEnv (.ok "[]") (.ok exampleData) ⟨"GET", "/"⟩)
      = responseOf (serve exampleEnv (.ok exampleData) (.ok exampleData) ⟨"GET", "/"⟩) :=
  (response_depends_on_file_at_request_time exampleEnv (.ok "[]") (.ok exampleData)
    (.ok exampleData) ⟨"GET", "/"⟩ ⟨"GET", "/"⟩ rfl rfl rfl rfl rfl).1

end HouseServer
